import Mathlib

/-!
Verification development for the Qdrant/Haystack document pipeline.

The Python services under the repository root are shallowly embedded:
byte strings become `List Nat` (each entry < 256), Python `str` becomes
Lean `String` (a sequence of Unicode code points, like Python), Python
dictionaries become association lists `List (String × PyVal)`, and
fallible code returns `Except String _`.  SHA-256 is implemented in full
over `Nat` words so that hashes evaluate inside the kernel.
-/

namespace Haystack

/-! ## SHA-256 over byte lists (hashlib.sha256(...).hexdigest()) -/

/-- 2^32, the modulus for 32-bit words. -/
def M32 : Nat := 4294967296

/-- 32-bit addition. -/
def add32 (a b : Nat) : Nat := (a + b) % M32

/-- Rotate a 32-bit word right by `n` bits. -/
def rotr (n x : Nat) : Nat := ((x >>> n) ||| ((x <<< (32 - n)) % M32))

/-- Bitwise complement of a 32-bit word. -/
def not32 (x : Nat) : Nat := 4294967295 - x

/-- SHA-256 round constants. -/
def sha256K : List Nat :=
  [1116352408, 1899447441, 3049323471, 3921009573, 961987163, 1508970993,
   2453635748, 2870763221, 3624381080, 310598401, 607225278, 1426881987,
   1925078388, 2162078206, 2614888103, 3248222580, 3835390401, 4022224774,
   264347078, 604807628, 770255983, 1249150122, 1555081692, 1996064986,
   2554220882, 2821834349, 2952996808, 3210313671, 3336571891, 3584528711,
   113926993, 338241895, 666307205, 773529912, 1294757372, 1396182291,
   1695183700, 1986661051, 2177026350, 2456956037, 2730485921, 2820302411,
   3259730800, 3345764771, 3516065817, 3600352804, 4094571909, 275423344,
   430227734, 506948616, 659060556, 883997877, 958139571, 1322822218,
   1537002063, 1747873779, 1955562222, 2024104815, 2227730452, 2361852424,
   2428436474, 2756734187, 3204031479, 3329325298]

/-- SHA-256 initial hash state. -/
def sha256H0 : List Nat :=
  [1779033703, 3144134277, 1013904242, 2773480762,
   1359893119, 2600822924, 528734635, 1541459225]

/-- Big-endian 8-byte encoding of a length in bits. -/
def be64 (n : Nat) : List Nat :=
  [(n >>> 56) % 256, (n >>> 48) % 256, (n >>> 40) % 256, (n >>> 32) % 256,
   (n >>> 24) % 256, (n >>> 16) % 256, (n >>> 8) % 256, n % 256]

/-- SHA-256 padding: append 0x80, zero bytes, and the 64-bit bit length. -/
def sha256Pad (msg : List Nat) : List Nat :=
  let l := msg.length
  msg ++ 0x80 :: List.replicate ((64 - ((l + 9) % 64)) % 64) 0 ++ be64 (8 * l)

/-- Split a byte list into 64-byte blocks (structural recursion on a fuel
bound so the kernel can evaluate it). -/
def chunks64Aux : Nat → List Nat → List (List Nat)
  | 0, _ => []
  | _, [] => []
  | fuel + 1, a :: rest => ((a :: rest).take 64) :: chunks64Aux fuel ((a :: rest).drop 64)

/-- Split a byte list into 64-byte blocks. -/
def chunks64 (l : List Nat) : List (List Nat) := chunks64Aux l.length l

/-- Combine bytes into big-endian 32-bit words. -/
def words4 : List Nat → List Nat
  | b0 :: b1 :: b2 :: b3 :: rest => (b0 * 16777216 + b1 * 65536 + b2 * 256 + b3) :: words4 rest
  | _ => []

/-- σ₀ message-schedule function. -/
def ssig0 (x : Nat) : Nat := rotr 7 x ^^^ rotr 18 x ^^^ (x >>> 3)

/-- σ₁ message-schedule function. -/
def ssig1 (x : Nat) : Nat := rotr 17 x ^^^ rotr 19 x ^^^ (x >>> 10)

/-- Σ₀ compression function. -/
def bsig0 (x : Nat) : Nat := rotr 2 x ^^^ rotr 13 x ^^^ rotr 22 x

/-- Σ₁ compression function. -/
def bsig1 (x : Nat) : Nat := rotr 6 x ^^^ rotr 11 x ^^^ rotr 25 x

/-- Choice function. -/
def chf (e f g : Nat) : Nat := (e &&& f) ^^^ (not32 e &&& g)

/-- Majority function. -/
def maj (a b c : Nat) : Nat := (a &&& b) ^^^ ((a &&& c) ^^^ (b &&& c))

/-- Extend the 16-word schedule by `k` further words. -/
def buildW (w : List Nat) : Nat → List Nat
  | 0 => w
  | k + 1 =>
      let n := w.length
      let next := add32 (add32 (ssig1 (w.getD (n - 2) 0)) (w.getD (n - 7) 0))
                        (add32 (ssig0 (w.getD (n - 15) 0)) (w.getD (n - 16) 0))
      buildW (w ++ [next]) k

/-- One SHA-256 round on the 8-word working state. -/
def sha256Round (st : List Nat) (kw : Nat × Nat) : List Nat :=
  match st with
  | [a, b, c, d, e, f, g, h] =>
      let t1 := add32 h (add32 (bsig1 e) (add32 (chf e f g) (add32 kw.1 kw.2)))
      let t2 := add32 (bsig0 a) (maj a b c)
      [add32 t1 t2, a, b, c, add32 d t1, e, f, g]
  | other => other

/-- Compress one 64-byte block into the hash state. -/
def sha256Block (h : List Nat) (block : List Nat) : List Nat :=
  let w := buildW (words4 block) 48
  let st := (sha256K.zip w).foldl sha256Round h
  (h.zip st).map (fun p => add32 p.1 p.2)

/-- SHA-256 digest of a byte list, as eight 32-bit words. -/
def sha256Words (msg : List Nat) : List Nat :=
  (chunks64 (sha256Pad msg)).foldl sha256Block sha256H0

/-- Hexadecimal digit characters. -/
def hexDigit (d : Nat) : Char :=
  "0123456789abcdef".data.getD d '0'

/-- Eight lowercase hex digits of a 32-bit word. -/
def hex8 (n : Nat) : List Char :=
  [28, 24, 20, 16, 12, 8, 4, 0].map (fun s => hexDigit ((n >>> s) % 16))

/-- `hashlib.sha256(msg).hexdigest()`: the 64-character lowercase hex digest. -/
def sha256hex (msg : List Nat) : String :=
  ⟨(sha256Words msg).flatMap hex8⟩

/-- UTF-8 encoding of one code point. -/
def utf8Char (c : Char) : List Nat :=
  let n := c.toNat
  if n < 0x80 then [n]
  else if n < 0x800 then [0xC0 ||| (n >>> 6), 0x80 ||| (n % 64)]
  else if n < 0x10000 then
    [0xE0 ||| (n >>> 12), 0x80 ||| ((n >>> 6) % 64), 0x80 ||| (n % 64)]
  else
    [0xF0 ||| (n >>> 18), 0x80 ||| ((n >>> 12) % 64), 0x80 ||| ((n >>> 6) % 64), 0x80 ||| (n % 64)]

/-- `str.encode('utf-8')` as a byte list. -/
def utf8 (s : String) : List Nat := s.data.flatMap utf8Char

example : sha256hex (utf8 "") = "e3b0c44298fc1c149afbf4c8996fb92427ae41e4649b934ca495991b7852b855" := by decide

example : sha256hex (utf8 "abc") = "ba7816bf8f01cfea414140de5dae2223b00361a396177a9cb410ff61f20015ad" := by decide

/-! ## Python values and `json.dumps(..., sort_keys=True)`

Python dictionaries are embedded as association lists `List (String × PyVal)`
in insertion order; a list standing for a `dict` has pairwise distinct keys
(stated as a hypothesis where a theorem needs it). -/

/-- JSON-serializable Python values appearing in this pipeline's metadata. -/
inductive PyVal where
  | str (s : String)
  | int (n : Int)
  | bool (b : Bool)
  | pynone
  | list (xs : List PyVal)

/-- Four lowercase hex digits, for `\uXXXX` escapes. -/
def hex4 (n : Nat) : List Char :=
  [hexDigit ((n >>> 12) % 16), hexDigit ((n >>> 8) % 16), hexDigit ((n >>> 4) % 16), hexDigit (n % 16)]

/-- `json.dumps` escaping of one character (default `ensure_ascii=True`):
short escapes for the usual controls, `\uXXXX` for other controls and all
non-ASCII code points, surrogate pairs beyond the BMP. -/
def jsonEscapeChar (c : Char) : List Char :=
  if c = '"' then ['\\', '"']
  else if c = '\\' then ['\\', '\\']
  else if c = '\n' then ['\\', 'n']
  else if c = '\t' then ['\\', 't']
  else if c = '\r' then ['\\', 'r']
  else if c = Char.ofNat 8 then ['\\', 'b']
  else if c = Char.ofNat 12 then ['\\', 'f']
  else if c.toNat < 0x20 then '\\' :: 'u' :: hex4 c.toNat
  else if c.toNat < 0x7f then [c]
  else if c.toNat < 0x10000 then '\\' :: 'u' :: hex4 c.toNat
  else
    let m := c.toNat - 0x10000
    ('\\' :: 'u' :: hex4 (0xD800 + (m >>> 10))) ++ ('\\' :: 'u' :: hex4 (0xDC00 + (m &&& 0x3FF)))

/-- A JSON string literal with quotes and escaping. -/
def jsonStr (s : String) : List Char := '"' :: (s.data.flatMap jsonEscapeChar ++ ['"'])

mutual
/-- Serialize one Python value as JSON text. -/
def jsonVal : PyVal → List Char
  | .str s => jsonStr s
  | .int n => (toString n).data
  | .bool b => if b then "true".data else "false".data
  | .pynone => "null".data
  | .list xs => '[' :: (jsonValList xs ++ [']'])

/-- Serialize list elements separated by `", "` (the `json.dumps` default). -/
def jsonValList : List PyVal → List Char
  | [] => []
  | [x] => jsonVal x
  | x :: y :: rest => jsonVal x ++ ',' :: ' ' :: jsonValList (y :: rest)
end

/-- Code-point lexicographic order on strings, as Python compares `str`. -/
def charsLt : List Char → List Char → Bool
  | [], [] => false
  | [], _ :: _ => true
  | _ :: _, [] => false
  | a :: as, b :: bs => if a = b then charsLt as bs else decide (a.toNat < b.toNat)

/-- Python `<` on strings. -/
def strLtB (a b : String) : Bool := charsLt a.data b.data

/-- Insert a pair into a key-sorted association list. -/
def insertKeySorted (p : String × PyVal) : List (String × PyVal) → List (String × PyVal)
  | [] => [p]
  | q :: rest => if strLtB q.1 p.1 then q :: insertKeySorted p rest else p :: q :: rest

/-- Sort an association list by key (what `sort_keys=True` does to a dict). -/
def sortByKey (l : List (String × PyVal)) : List (String × PyVal) := l.foldr insertKeySorted []

/-- Serialize sorted dict entries: `"key": value` joined by `", "`. -/
def jsonPairs : List (String × PyVal) → List Char
  | [] => []
  | [p] => jsonStr p.1 ++ ':' :: ' ' :: jsonVal p.2
  | p :: q :: rest => (jsonStr p.1 ++ ':' :: ' ' :: jsonVal p.2) ++ ',' :: ' ' :: jsonPairs (q :: rest)

/-- `json.dumps(d, sort_keys=True, default=str)` for a metadata dict (all
values in this pipeline are JSON-serializable, so `default=str` never fires). -/
def pyJsonDumpsSorted (m : List (String × PyVal)) : String :=
  ⟨Char.ofNat 123 :: (jsonPairs (sortByKey m) ++ [Char.ofNat 125])⟩

example : pyJsonDumpsSorted [("b", .int 2), ("a", .str "x")]
    = ⟨Char.ofNat 123 :: ("\"a\": \"x\", \"b\": 2".data ++ [Char.ofNat 125])⟩ := by decide

/-! ## deduplication_service.normalize_content -/

/-- Characters for which Python `str.isspace()` is true (the set `str.rstrip()`
strips). -/
def pySpaceChars : List Char :=
  [' ', '\t', '\n', Char.ofNat 11, Char.ofNat 12, '\r',
   Char.ofNat 28, Char.ofNat 29, Char.ofNat 30, Char.ofNat 31,
   Char.ofNat 0x85, Char.ofNat 0xa0, Char.ofNat 0x1680,
   Char.ofNat 0x2000, Char.ofNat 0x2001, Char.ofNat 0x2002, Char.ofNat 0x2003,
   Char.ofNat 0x2004, Char.ofNat 0x2005, Char.ofNat 0x2006, Char.ofNat 0x2007,
   Char.ofNat 0x2008, Char.ofNat 0x2009, Char.ofNat 0x200a,
   Char.ofNat 0x2028, Char.ofNat 0x2029, Char.ofNat 0x202f, Char.ofNat 0x205f, Char.ofNat 0x3000]

/-- Python `str.isspace()` on one character. -/
def pyIsSpace (c : Char) : Bool := pySpaceChars.contains c

/-- Python `str.rstrip()`: drop trailing whitespace. -/
def rstripChars (l : List Char) : List Char := (l.reverse.dropWhile pyIsSpace).reverse

/-- `content.replace('\r\n', '\n')`: one left-to-right non-overlapping pass. -/
def replCRLF : List Char → List Char
  | '\r' :: '\n' :: rest => '\n' :: replCRLF rest
  | c :: rest => c :: replCRLF rest
  | [] => []

/-- `content.replace('\r', '\n')`. -/
def replCR (l : List Char) : List Char := l.map (fun c => if c = '\r' then '\n' else c)

/-- Case folding used for `re.IGNORECASE` matching of ASCII pattern letters. -/
def lowChar (c : Char) : Char := Char.toLower c

/-- Does `cs` start with the lowercase pattern `ps`, case-insensitively? -/
def isPrefCI : List Char → List Char → Bool
  | [], _ => true
  | _ :: _, [] => false
  | p :: ps, c :: cs => (lowChar c = p) && isPrefCI ps cs

/-- `re.sub(literal, '', s, flags=IGNORECASE)` for a literal pattern
`p0 :: ps` (given lowercase): leftmost matches removed, scan resumes after
each match.  `fuel` bounds the recursion; callers pass the list length. -/
def stripLitAux (p0 : Char) (ps : List Char) : Nat → List Char → List Char
  | 0, l => l
  | _, [] => []
  | fuel + 1, c :: rest =>
      if lowChar c = p0 && isPrefCI ps rest then stripLitAux p0 ps fuel (rest.drop ps.length)
      else c :: stripLitAux p0 ps fuel rest

/-- Remove all case-insensitive occurrences of a literal pattern. -/
def stripLitCI (pat : List Char) (l : List Char) : List Char :=
  match pat with
  | [] => l
  | p0 :: ps => stripLitAux p0 ps l.length l

/-- Scan for the first `]` with no intervening newline (`.*?\]` with `.` not
matching `\n`); returns the remainder after the bracket. -/
def scanClose : Nat → List Char → Option (List Char)
  | 0, _ => none
  | _, [] => none
  | fuel + 1, c :: rest =>
      if c = ']' then some rest
      else if c = '\n' then none
      else scanClose fuel rest

/-- `re.sub(r'\[TAG.*?\]', '', s, flags=IGNORECASE)` where `tag` is the
lowercase text after the opening bracket (`todo:` or `tbd:`). -/
def stripTagAux (tag : List Char) : Nat → List Char → List Char
  | 0, l => l
  | _, [] => []
  | fuel + 1, c :: rest =>
      if c = '[' && isPrefCI tag rest then
        match scanClose rest.length (rest.drop tag.length) with
        | some rem => stripTagAux tag fuel rem
        | none => c :: stripTagAux tag fuel rest
      else c :: stripTagAux tag fuel rest

/-- Remove all `[tag...]` placeholder spans. -/
def stripTag (tag : List Char) (l : List Char) : List Char := stripTagAux tag l.length l

/-- The four placeholder removals of `normalize_content`, applied in source
order: the two literal patterns, then `[TODO:...]`, then `[TBD:...]`. -/
def stripPlaceholders (l : List Char) : List Char :=
  stripTag "tbd:".data
    (stripTag "todo:".data
      (stripLitCI "[...]".data
        (stripLitCI "[full content from file...]".data l)))

/-- Python `str.lower()`, per code point. -/
def pyLower (l : List Char) : List Char := l.map Char.toLower

/-- `deduplication_service.normalize_content`: rstrip, normalize newlines,
remove placeholder markers, lowercase.  Empty (falsy) content maps to `""`. -/
def normalize_content (s : String) : String :=
  if s = "" then ""
  else ⟨pyLower (stripPlaceholders (replCR (replCRLF (rstripChars s.data))))⟩

example : normalize_content "Hello\r\nWorld  " = "hello\nworld" := by decide
example : normalize_content "abc [...]" = "abc " := by decide
example : normalize_content "A [TODO: fix]B" = "a b" := by decide

/-! ## deduplication_service.generate_content_fingerprint -/

/-- The fingerprint triple returned by `generate_content_fingerprint`. -/
structure Fingerprint where
  contentHash : String
  metadataHash : String
  compositeKey : String
deriving DecidableEq

/-- `generate_content_fingerprint(content, metadata)`: SHA-256 of the
normalized content, SHA-256 of `json.dumps(metadata, sort_keys=True,
default=str)`, and the composite key.  Note: the metadata is hashed as
given, no key is excluded. -/
def generate_content_fingerprint (content : String) (metadata : List (String × PyVal)) :
    Fingerprint :=
  let ch := sha256hex (utf8 (normalize_content content))
  let mh := sha256hex (utf8 (pyJsonDumpsSorted metadata))
  ⟨ch, mh, ch ++ ":" ++ mh⟩

/-! ### Lemmas about the normalization pipeline (for claim C4) -/

theorem toLower_cases (c : Char) :
    (65 ≤ c.toNat ∧ c.toNat ≤ 90 ∧ (Char.toLower c).toNat = c.toNat + 32)
    ∨ (¬(65 ≤ c.toNat ∧ c.toNat ≤ 90) ∧ Char.toLower c = c) := by
  by_cases h : 65 ≤ c.toNat ∧ c.toNat ≤ 90
  · left
    refine ⟨h.1, h.2, ?_⟩
    have hv : Nat.isValidChar (c.toNat + 32) := Or.inl (by omega)
    simp only [Char.toLower, ge_iff_le]
    rw [if_pos ⟨h.1, h.2⟩]
    unfold Char.ofNat
    have hv2 : (c.val.toNat + 32).isValidChar := hv
    simp only [Char.ofNatAux, hv2, dif_pos, Char.toNat]
    rfl
  · right
    refine ⟨h, ?_⟩
    simp only [Char.toLower, ge_iff_le]
    rw [if_neg h]

theorem toLower_idem (c : Char) : Char.toLower (Char.toLower c) = Char.toLower c := by
  rcases toLower_cases (Char.toLower c) with h2 | h2
  · rcases toLower_cases c with h1 | h1
    · omega
    · rw [h1.2] at h2 ⊢
      exact absurd ⟨h2.1, h2.2.1⟩ h1.1
  · exact h2.2

theorem toLower_eq_low (c d : Char) (hd : d.toNat < 97 ∨ 122 < d.toNat)
    (h : Char.toLower c = d) : c = d := by
  rcases toLower_cases c with h1 | h1
  · have := congrArg Char.toNat h
    omega
  · rw [← h1.2]; exact h

theorem space_toNat_bounds : ∀ x ∈ pySpaceChars, x.toNat < 97 ∨ 122 < x.toNat := by decide

theorem pyIsSpace_toLower (c : Char) (h : pyIsSpace c = false) :
    pyIsSpace (Char.toLower c) = false := by
  rcases toLower_cases c with h1 | h1
  · by_contra hsp
    have hm : Char.toLower c ∈ pySpaceChars := by
      have : pyIsSpace (Char.toLower c) = true := by
        cases hx : pyIsSpace (Char.toLower c)
        · exact absurd hx hsp
        · rfl
      simpa [pyIsSpace] using this
    have := space_toNat_bounds _ hm
    omega
  · rw [h1.2]; exact h

theorem mem_rstripChars (c : Char) (l : List Char) (h : c ∈ rstripChars l) : c ∈ l := by
  unfold rstripChars at h
  have h2 := (List.dropWhile_sublist pyIsSpace (l := l.reverse)).mem (List.mem_reverse.mp h)
  exact List.mem_reverse.mp h2

theorem getLast_rstripChars (l : List Char) (c : Char)
    (h : (rstripChars l).getLast? = some c) : pyIsSpace c = false := by
  unfold rstripChars at h
  rw [List.getLast?_reverse] at h
  have := List.head?_dropWhile_not pyIsSpace l.reverse
  rw [h] at this
  exact this

theorem rstripChars_eq_self (l : List Char)
    (h : ∀ c, l.getLast? = some c → pyIsSpace c = false) : rstripChars l = l := by
  unfold rstripChars
  rcases hr : l.reverse with _ | ⟨a, t⟩
  · simpa using congrArg List.reverse hr
  · have ha : l.getLast? = some a := by
      rw [← List.head?_reverse, hr]; rfl
    rw [List.dropWhile_cons, h a ha]
    simp only [Bool.false_eq_true, if_false]
    rw [← hr, List.reverse_reverse]

theorem mem_replCRLF (c : Char) : ∀ l, c ∈ replCRLF l → c ∈ l ∨ c = '\n' := by
  intro l h
  induction l using replCRLF.induct with
  | case1 rest ih =>
      simp only [replCRLF, List.mem_cons] at h
      rcases h with h | h
      · right; exact h
      · rcases ih h with h2 | h2
        · left; simp [h2]
        · right; exact h2
  | case2 c2 rest hne ih =>
      simp only [replCRLF, List.mem_cons] at h
      rcases h with h | h
      · left; simp [h]
      · rcases ih h with h2 | h2
        · left; simp [h2]
        · right; exact h2
  | case3 => simp [replCRLF] at h

theorem replCRLF_ne_nil (l : List Char) (h : l ≠ []) : replCRLF l ≠ [] := by
  induction l using replCRLF.induct with
  | case1 rest ih => simp [replCRLF]
  | case2 c2 rest hne ih => simp [replCRLF]
  | case3 => exact absurd rfl h

theorem getLast?_cons_ne {α : Type} (a : α) (l : List α) (h : l ≠ []) :
    (a :: l).getLast? = l.getLast? := by
  rcases l with _ | ⟨b, t⟩
  · exact absurd rfl h
  · exact List.getLast?_cons_cons

theorem getLast_replCRLF (l : List Char)
    (h : ∀ c, l.getLast? = some c → pyIsSpace c = false) :
    ∀ c, (replCRLF l).getLast? = some c → pyIsSpace c = false := by
  induction l using replCRLF.induct with
  | case1 rest ih =>
      intro c hc
      rw [replCRLF] at hc
      rcases hrest : rest with _ | ⟨a, t⟩
      · exact absurd (h '\n' (by rw [hrest]; decide)) (by decide)
      · have hrn : rest ≠ [] := by rw [hrest]; simp
        rw [getLast?_cons_ne _ _ (replCRLF_ne_nil rest hrn)] at hc
        refine ih ?_ c hc
        intro d hd
        refine h d ?_
        rw [getLast?_cons_ne '\r' ('\n' :: rest) (by simp), getLast?_cons_ne '\n' rest hrn]
        exact hd
  | case2 c2 rest hne ih =>
      intro c hc
      rw [replCRLF] at hc
      case x_1 => exact hne
      rcases hrest : rest with _ | ⟨a, t⟩
      · subst hrest
        rw [show replCRLF [] = [] from rfl, List.getLast?_singleton] at hc
        have hcc : c = c2 := (Option.some.inj hc).symm
        rw [hcc]
        exact h c2 (by rw [List.getLast?_singleton])
      · have hrn : rest ≠ [] := by rw [hrest]; simp
        rw [getLast?_cons_ne c2 (replCRLF rest) (replCRLF_ne_nil rest hrn)] at hc
        refine ih ?_ c hc
        intro d hd
        exact h d (by rw [getLast?_cons_ne c2 rest hrn]; exact hd)
  | case3 => intro c hc; simp [replCRLF] at hc

theorem replCRLF_eq_self (l : List Char) (h : '\r' ∉ l) : replCRLF l = l := by
  induction l using replCRLF.induct with
  | case1 rest ih => simp at h
  | case2 c2 rest hne ih =>
      rw [replCRLF]
      case x_1 => exact hne
      rw [ih (fun hm => h (List.mem_cons_of_mem c2 hm))]
  | case3 => rfl

theorem mem_replCR (c : Char) (l : List Char) (h : c ∈ replCR l) : c ∈ l ∨ c = '\n' := by
  unfold replCR at h
  rcases List.mem_map.mp h with ⟨d, hd, he⟩
  by_cases hdr : d = '\r'
  · right; rw [← he, hdr]; rfl
  · left; rw [← he]; simpa [hdr] using hd

theorem replCR_no_cr (l : List Char) : '\r' ∉ replCR l := by
  intro h
  rcases List.mem_map.mp h with ⟨d, _, he⟩
  by_cases hdr : d = '\r' <;> simp [hdr] at he

theorem replCR_eq_self (l : List Char) (h : '\r' ∉ l) : replCR l = l := by
  unfold replCR
  have hid : ∀ a ∈ l, (if a = '\r' then '\n' else a) = id a := by
    intro a ha
    have : a ≠ '\r' := fun he => h (he ▸ ha)
    simp [this]
  rw [List.map_congr_left hid, List.map_id]

theorem getLast_replCR (l : List Char)
    (h : ∀ c, l.getLast? = some c → pyIsSpace c = false) :
    ∀ c, (replCR l).getLast? = some c → pyIsSpace c = false := by
  intro c hc
  unfold replCR at hc
  rw [List.getLast?_map] at hc
  rcases hx : l.getLast? with _ | d
  · rw [hx] at hc; exact Option.noConfusion hc
  · rw [hx] at hc
    have hc2 := Option.some.inj hc
    have hd := h d hx
    have hdr : d ≠ '\r' := by
      intro he
      rw [he] at hd
      simp [pyIsSpace, pySpaceChars] at hd
    have hc3 : d = c := by simpa [hdr] using hc2
    rw [← hc3]
    exact hd

theorem stripLitAux_eq_self (ps : List Char) (fuel : Nat) (l : List Char) (h : '[' ∉ l) :
    stripLitAux '[' ps fuel l = l := by
  induction fuel generalizing l with
  | zero => rcases l with _ | ⟨c, rest⟩ <;> rfl
  | succ n ih =>
      rcases l with _ | ⟨c, rest⟩
      · rfl
      · have hc : c ≠ '[' := fun he => h (by simp [he])
        have hlow : ¬(lowChar c = '[') := by
          intro he
          exact hc (toLower_eq_low c '[' (by decide) he)
        rw [stripLitAux]
        rw [if_neg (by simp [hlow])]
        rw [ih rest (fun hm => h (List.mem_cons_of_mem c hm))]

theorem stripTagAux_eq_self (tag : List Char) (fuel : Nat) (l : List Char) (h : '[' ∉ l) :
    stripTagAux tag fuel l = l := by
  induction fuel generalizing l with
  | zero => rcases l with _ | ⟨c, rest⟩ <;> rfl
  | succ n ih =>
      rcases l with _ | ⟨c, rest⟩
      · rfl
      · have hc : ¬(c = '[') := fun he => h (by simp [he])
        rw [stripTagAux]
        rw [if_neg (by simp [hc])]
        rw [ih rest (fun hm => h (List.mem_cons_of_mem c hm))]

theorem stripLitCI_lbrack_eq_self (p0 : Char) (ps l : List Char) (hp : p0 = '[')
    (h : '[' ∉ l) : stripLitCI (p0 :: ps) l = l := by
  rw [show stripLitCI (p0 :: ps) l = stripLitAux p0 ps l.length l from rfl, hp]
  exact stripLitAux_eq_self ps l.length l h

theorem stripPlaceholders_eq_self (l : List Char) (h : '[' ∉ l) : stripPlaceholders l = l := by
  unfold stripPlaceholders stripTag
  rw [show ("[full content from file...]".data : List Char)
        = '[' :: "full content from file...]".data from rfl,
      show ("[...]".data : List Char) = '[' :: "...]".data from rfl,
      stripLitCI_lbrack_eq_self _ _ _ rfl h, stripLitCI_lbrack_eq_self _ _ _ rfl h,
      stripTagAux_eq_self _ _ _ h, stripTagAux_eq_self _ _ _ h]

theorem pyLower_idem (l : List Char) : pyLower (pyLower l) = pyLower l := by
  unfold pyLower
  rw [List.map_map]
  exact List.map_congr_left (fun c _ => toLower_idem c)

theorem pyLower_no_lbrack (l : List Char) (h : '[' ∉ l) : '[' ∉ pyLower l := by
  intro hm
  rcases List.mem_map.mp hm with ⟨d, hd, he⟩
  exact h ((toLower_eq_low d '[' (by decide) he) ▸ hd)

theorem pyLower_no_cr (l : List Char) (h : '\r' ∉ l) : '\r' ∉ pyLower l := by
  intro hm
  rcases List.mem_map.mp hm with ⟨d, hd, he⟩
  exact h ((toLower_eq_low d '\r' (by decide) he) ▸ hd)

theorem getLast_pyLower (l : List Char)
    (h : ∀ c, l.getLast? = some c → pyIsSpace c = false) :
    ∀ c, (pyLower l).getLast? = some c → pyIsSpace c = false := by
  intro c hc
  unfold pyLower at hc
  rw [List.getLast?_map] at hc
  rcases hx : l.getLast? with _ | d
  · rw [hx] at hc; exact Option.noConfusion hc
  · rw [hx] at hc
    have hc2 := Option.some.inj hc
    exact hc2 ▸ pyIsSpace_toLower d (h d hx)

/-! ## metadata_service: dict helpers and build_metadata_schema -/

/-- Python truthiness of an `Optional[str]`: `None` and `""` are falsy. -/
def pyTruthyS : Option String → Bool
  | none => false
  | some s => s != ""

/-- `d[k] = v` on a dict: replace the value in place, or append a new key. -/
def dictSet (d : List (String × PyVal)) (k : String) (v : PyVal) : List (String × PyVal) :=
  if d.any (fun p => p.1 == k) then d.map (fun p => if p.1 == k then (p.1, v) else p)
  else d ++ [(k, v)]

/-- `d.update(u)`: apply each assignment of `u` in order. -/
def dictUpdate (d u : List (String × PyVal)) : List (String × PyVal) :=
  u.foldl (fun acc kv => dictSet acc kv.1 kv.2) d

/-- `d[k]` lookup (a dict has unique keys, so the first hit is the value). -/
def dictLookup (d : List (String × PyVal)) (k : String) : Option PyVal :=
  (d.find? (fun p => p.1 == k)).map (fun p => p.2)

/-- `VALID_CATEGORIES` from metadata_service. -/
def VALID_CATEGORIES : List String :=
  ["user_rule", "project_rule", "project_command", "design_doc", "debug_summary", "test_pattern", "other"]

/-- `VALID_SOURCES` from metadata_service. -/
def VALID_SOURCES : List String := ["manual", "generated", "imported"]

/-- `VALID_STATUSES` from metadata_service. -/
def VALID_STATUSES : List String := ["active", "deprecated", "draft"]

/-- The volatile keys excluded from `metadata_hash` in build_metadata_schema. -/
def volatileFields : List String := ["created_at", "updated_at", "status", "version"]

/-- The dict comprehension `{k: v for k, v in m.items() if k not in [...]}`. -/
def excludeVolatile (m : List (String × PyVal)) : List (String × PyVal) :=
  m.filter (fun kv => !(volatileFields.contains kv.1))

/-- `version` resolution: `if not version: version = now`. -/
def resolveVersion (version : Option String) (now : String) : String :=
  if pyTruthyS version then version.getD "" else now

/-- `hash_file` resolution: when a truthy `file_path` is given and `hash_file`
is falsy, hash the file's bytes if the read succeeds (`readFileBytes` is the
filesystem's answer), else leave `hash_file` as it was. -/
def resolveHashFile (file_path hash_file : Option String) (readFileBytes : Option (List Nat)) :
    Option String :=
  if pyTruthyS file_path && !(pyTruthyS hash_file) then
    match readFileBytes with
    | some bs => some (sha256hex bs)
    | none => hash_file
  else hash_file

/-- The base metadata dict of `build_metadata_schema` (everything assigned
before `metadata_hash` is computed), in Python insertion order. -/
def buildBaseMetadata (doc_id version category hash_content source repo status now : String)
    (tags : List String) (file_path hash_file : Option String) : List (String × PyVal) :=
  [("doc_id", .str doc_id), ("version", .str version), ("category", .str category),
   ("hash_content", .str hash_content), ("source", .str source), ("repo", .str repo),
   ("status", .str status), ("created_at", .str now), ("updated_at", .str now),
   ("tags", .list (tags.map .str))]
  ++ (if pyTruthyS file_path then
        [("file_path", .str (file_path.getD "")), ("path", .str (file_path.getD ""))]
      else [])
  ++ (if pyTruthyS hash_file then [("hash_file", .str (hash_file.getD ""))] else [])

/-- The stable metadata the builder hashes: the base dict minus the volatile
fields. -/
def buildStableMetadata (doc_id category hash_content source repo status now : String)
    (version file_path : Option String) (tags : Option (List String))
    (hash_file : Option String) (readFileBytes : Option (List Nat)) : List (String × PyVal) :=
  excludeVolatile (buildBaseMetadata doc_id (resolveVersion version now) category hash_content
    source repo status now (tags.getD []) file_path
    (resolveHashFile file_path hash_file readFileBytes))

/-- `metadata_service.build_metadata_schema`.  `now` stands for
`datetime.utcnow().isoformat()+'Z'` and `readFileBytes` for the bytes read
from `file_path` (None when the read fails or no file exists); `content` is
accepted but unused, as in the source. -/
def build_metadata_schema (content doc_id category hash_content : String)
    (version file_path : Option String) (source repo : String)
    (tags : Option (List String)) (hash_file : Option String) (status : String)
    (additional_metadata : Option (List (String × PyVal)))
    (now : String) (readFileBytes : Option (List Nat)) :
    Except String (List (String × PyVal)) :=
  if doc_id == "" then .error "doc_id is required and cannot be empty"
  else if category == "" then .error "category is required and cannot be empty"
  else if !(VALID_CATEGORIES.contains category) then .error "category must be one of the valid categories"
  else if hash_content == "" then .error "hash_content is required and cannot be empty"
  else if !(VALID_SOURCES.contains source) then .error "source must be one of the valid sources"
  else if !(VALID_STATUSES.contains status) then .error "status must be one of the valid statuses"
  else
    let ver := resolveVersion version now
    let hf := resolveHashFile file_path hash_file readFileBytes
    let base := buildBaseMetadata doc_id ver category hash_content source repo status now
      (tags.getD []) file_path hf
    let mh := sha256hex (utf8 (pyJsonDumpsSorted (excludeVolatile base)))
    let record := base ++ [("metadata_hash", .str mh), ("content_hash", .str hash_content)]
    .ok (match additional_metadata with
         | some am => dictUpdate record am
         | none => record)

/-- `dictLookup` skips an association-list segment holding none of the key. -/
theorem dictLookup_append_right (d e : List (String × PyVal)) (k : String)
    (h : ∀ p ∈ d, (p.1 == k) = false) : dictLookup (d ++ e) k = dictLookup e k := by
  induction d with
  | nil => rfl
  | cons a rest ih =>
      have ha := h a (by simp)
      simp only [dictLookup, List.cons_append, List.find?_cons, ha]
      exact ih (fun p hp => h p (by simp [hp]))

/-- C1, counterexample: `generate_content_fingerprint` hashes the metadata
dict as given, so for a metadata containing the volatile key `status` its
`metadata_hash` is not the SHA-256 of the volatile-excluded canonical JSON. -/
theorem C1_counterexample :
    (generate_content_fingerprint "" [("status", PyVal.str "active")]).metadataHash ≠
      sha256hex (utf8 (pyJsonDumpsSorted (excludeVolatile [("status", PyVal.str "active")]))) := by
  decide

/-- C1 (amended): the fingerprint's `metadata_hash` is the hex SHA-256 of the
canonical key-sorted JSON of the metadata *as given* (no field excluded); it
agrees with the volatile-excluded hash exactly on metadata that contains no
volatile field, and `build_metadata_schema` stores as `metadata_hash` the
fingerprint `metadata_hash` of its own stable (volatile-free) metadata. -/
theorem C1_metadata_hash_amended :
    (∀ (content : String) (m : List (String × PyVal)),
        (∀ kv ∈ m, volatileFields.contains kv.1 = false) →
        (generate_content_fingerprint content m).metadataHash
          = sha256hex (utf8 (pyJsonDumpsSorted (excludeVolatile m))))
    ∧ (∀ (content doc_id category hash_content source repo status now : String)
          (version file_path : Option String) (tags : Option (List String))
          (hash_file : Option String) (readFileBytes : Option (List Nat)),
        doc_id ≠ "" → VALID_CATEGORIES.contains category = true →
        hash_content ≠ "" → VALID_SOURCES.contains source = true →
        VALID_STATUSES.contains status = true →
        ∃ r, build_metadata_schema content doc_id category hash_content version file_path
              source repo tags hash_file status none now readFileBytes = .ok r
          ∧ dictLookup r "metadata_hash"
              = some (.str ((generate_content_fingerprint content
                  (buildStableMetadata doc_id category hash_content source repo status now
                    version file_path tags hash_file readFileBytes)).metadataHash))) := by
  constructor
  · intro content m h
    have hm : excludeVolatile m = m := by
      unfold excludeVolatile
      apply List.filter_eq_self.mpr
      intro kv hkv
      rw [h kv hkv]
      rfl
    rw [hm]
    rfl
  · intro content doc_id category hash_content source repo status now version file_path tags
        hash_file readFileBytes hdoc hcat hhash hsrc hstat
    have hcat2 : category ≠ "" := by
      rintro rfl
      simp [VALID_CATEGORIES] at hcat
    refine ⟨buildBaseMetadata doc_id (resolveVersion version now) category hash_content source
        repo status now (tags.getD []) file_path
        (resolveHashFile file_path hash_file readFileBytes)
      ++ [("metadata_hash", .str ((generate_content_fingerprint content
              (buildStableMetadata doc_id category hash_content source repo status now
                version file_path tags hash_file readFileBytes)).metadataHash)),
          ("content_hash", .str hash_content)], ?_, ?_⟩
    · have hcat3 : category ∈ VALID_CATEGORIES := by simpa using hcat
      have hsrc3 : source ∈ VALID_SOURCES := by simpa using hsrc
      have hstat3 : status ∈ VALID_STATUSES := by simpa using hstat
      simp [build_metadata_schema, hdoc, hcat2, hhash, hcat3, hsrc3, hstat3, buildStableMetadata]
      rfl
    · rw [dictLookup_append_right]
      · rfl
      · intro p hp
        simp only [buildBaseMetadata, List.append_assoc, List.mem_append, List.mem_cons,
          List.not_mem_nil, or_false] at hp
        rcases hp with (rfl | rfl | rfl | rfl | rfl | rfl | rfl | rfl | rfl | rfl) | hp
        any_goals rfl
        rcases hp with hp | hp
        · split at hp
          · simp only [List.mem_cons, List.not_mem_nil, or_false] at hp
            rcases hp with rfl | rfl <;> rfl
          · simp at hp
        · split at hp
          · simp only [List.mem_cons, List.not_mem_nil, or_false] at hp
            rcases hp with rfl <;> rfl
          · simp at hp

/-- Witness for `C1_metadata_hash_amended` at concrete inputs. -/
theorem C1_metadata_hash_amended_witness :
    ((∀ kv ∈ ([("category", PyVal.str "other")] : List (String × PyVal)),
        volatileFields.contains kv.1 = false)
      ∧ (generate_content_fingerprint "hello" [("category", PyVal.str "other")]).metadataHash
          = sha256hex (utf8 (pyJsonDumpsSorted (excludeVolatile [("category", PyVal.str "other")]))))
    ∧ (("d1" : String) ≠ "" ∧ VALID_CATEGORIES.contains "other" = true
      ∧ ("h1" : String) ≠ "" ∧ VALID_SOURCES.contains "manual" = true
      ∧ VALID_STATUSES.contains "active" = true
      ∧ ∃ r, build_metadata_schema "hello" "d1" "other" "h1" none none
              "manual" "qdrant_haystack" none none "active" none "T0" none = .ok r
          ∧ dictLookup r "metadata_hash"
              = some (.str ((generate_content_fingerprint "hello"
                  (buildStableMetadata "d1" "other" "h1" "manual" "qdrant_haystack" "active" "T0"
                    none none none none none)).metadataHash))) := by
  constructor
  · exact ⟨by decide, C1_metadata_hash_amended.1 "hello" _ (by decide)⟩
  · exact ⟨by decide, by decide, by decide, by decide, by decide,
      C1_metadata_hash_amended.2 "hello" "d1" "other" "h1" "manual" "qdrant_haystack" "active"
        "T0" none none none none none (by decide) (by decide) (by decide) (by decide) (by decide)⟩


/-! ## Claim C4: hashing over normalized content, idempotence of normalization -/

/-- C4, counterexample: removing the `[...]` placeholder exposes trailing
whitespace that only a second pass would strip, so normalization is not
idempotent and hashing a string differs from hashing its normalization. -/
theorem C4_counterexample :
    normalize_content (normalize_content "abc [...]") ≠ normalize_content "abc [...]"
    ∧ (generate_content_fingerprint "abc [...]" []).contentHash
        ≠ (generate_content_fingerprint (normalize_content "abc [...]") []).contentHash := by
  constructor
  · decide
  · decide

/-- C4 (amended): the content hash is computed over normalized content, and
for content containing no placeholder bracket `[` normalization is idempotent
and hashing commutes with normalization. -/
theorem C4_hash_normalize_amended (c : String) :
    (generate_content_fingerprint c []).contentHash = sha256hex (utf8 (normalize_content c))
    ∧ ('[' ∉ c.data →
        normalize_content (normalize_content c) = normalize_content c
        ∧ (generate_content_fingerprint (normalize_content c) []).contentHash
            = (generate_content_fingerprint c []).contentHash) := by
  refine ⟨rfl, fun h => ?_⟩
  have hidem : normalize_content (normalize_content c) = normalize_content c := by
    by_cases hc : c = ""
    · rw [hc]
      rfl
    · have hnol : '[' ∉ replCR (replCRLF (rstripChars c.data)) := by
        intro hm
        rcases mem_replCR _ _ hm with hm2 | hm2
        · rcases mem_replCRLF _ _ hm2 with hm3 | hm3
          · exact h (mem_rstripChars _ _ hm3)
          · exact absurd hm3 (by decide)
        · exact absurd hm2 (by decide)
      have hN : normalize_content c = ⟨pyLower (replCR (replCRLF (rstripChars c.data)))⟩ := by
        unfold normalize_content
        rw [if_neg hc, stripPlaceholders_eq_self _ hnol]
      have hL_nol : '[' ∉ pyLower (replCR (replCRLF (rstripChars c.data))) :=
        pyLower_no_lbrack _ hnol
      have hL_nocr : '\r' ∉ pyLower (replCR (replCRLF (rstripChars c.data))) :=
        pyLower_no_cr _ (replCR_no_cr _)
      have hL_last : ∀ ch, (pyLower (replCR (replCRLF (rstripChars c.data)))).getLast? = some ch →
          pyIsSpace ch = false := by
        refine getLast_pyLower _ (getLast_replCR _ (getLast_replCRLF _ ?_))
        intro ch hch
        exact getLast_rstripChars c.data ch hch
      by_cases hN0 : normalize_content c = ""
      · rw [hN0]
        rfl
      · rw [hN]
        have hN0b : (⟨pyLower (replCR (replCRLF (rstripChars c.data)))⟩ : String) ≠ "" := by
          rw [← hN]; exact hN0
        unfold normalize_content
        rw [if_neg hN0b]
        show (⟨pyLower (stripPlaceholders (replCR (replCRLF (rstripChars
          (pyLower (replCR (replCRLF (rstripChars c.data)))))))) ⟩ : String) = _
        rw [rstripChars_eq_self _ hL_last, replCRLF_eq_self _ hL_nocr,
            replCR_eq_self _ hL_nocr, stripPlaceholders_eq_self _ hL_nol]
        show (⟨pyLower (pyLower (replCR (replCRLF (rstripChars c.data))))⟩ : String) = _
        rw [pyLower_idem]
  refine ⟨hidem, ?_⟩
  show sha256hex (utf8 (normalize_content (normalize_content c))) = _
  rw [hidem]
  rfl

/-- Witness for `C4_hash_normalize_amended` at `"Hello World"`. -/
theorem C4_hash_normalize_amended_witness :
    ((generate_content_fingerprint "Hello World" []).contentHash
        = sha256hex (utf8 (normalize_content "Hello World")))
    ∧ ('[' ∉ "Hello World".data
    ∧ normalize_content (normalize_content "Hello World") = normalize_content "Hello World"
    ∧ (generate_content_fingerprint (normalize_content "Hello World") []).contentHash
        = (generate_content_fingerprint "Hello World" []).contentHash) :=
  ⟨(C4_hash_normalize_amended "Hello World").1,
   by decide,
   ((C4_hash_normalize_amended "Hello World").2 (by decide)).1,
   ((C4_hash_normalize_amended "Hello World").2 (by decide)).2⟩

/-! ## deduplication_service.check_duplicate_level / decide_storage_action

A Haystack `Document` is modelled by the fields this pipeline reads from it:
`doc.id`, `doc.content`, and the metadata keys accessed through
`doc.meta.get(...)` (a document whose `meta` is `None` is the one with all
metadata fields `none`). -/

/-- The slice of a stored document that the services read. -/
structure Doc where
  id : Option String := none
  content : String := ""
  docId : Option String := none
  chunkId : Option String := none
  parentDocId : Option String := none
  chunkIndex : Option Int := none
  totalChunks : Option Int := none
  hashContent : Option String := none
  contentHash : Option String := none
  metadataHash : Option String := none
  version : Option String := none
  status : Option String := none
deriving DecidableEq

/-- Python `a or b` on two `Optional[str]` values (`None` and `""` falsy). -/
def pyOrS (a b : Option String) : Option String := if pyTruthyS a then a else b

/-- Python `==` between an `Optional[str]` and a `str` (`None == s` is false). -/
def optEqS (o : Option String) (s : String) : Bool := o == some s

/-- The `doc_content_hash` read: `meta.get('hash_content') or meta.get('content_hash')`. -/
def docContentHash (d : Doc) : Option String := pyOrS d.hashContent d.contentHash

/-- Level-1 test: same `content_hash` and same `metadata_hash`. -/
def l1Pred (fp : Fingerprint) (d : Doc) : Bool :=
  optEqS (docContentHash d) fp.contentHash && optEqS d.metadataHash fp.metadataHash

/-- The chunk-level case 1 of the level-2 loop (guarded by `is_chunk`). -/
def l2ChunkPred (fp : Fingerprint) (docId : Option String) (d : Doc) : Bool :=
  pyTruthyS docId && pyTruthyS d.chunkId && (d.chunkId == docId)
    && !(optEqS (docContentHash d) fp.contentHash)

/-- Document case 1 of the level-2 loop: same truthy `doc_id`, different hash. -/
def l2DocIdPred (fp : Fingerprint) (docId : Option String) (d : Doc) : Bool :=
  pyTruthyS docId && pyTruthyS d.docId && (d.docId == docId)
    && !(optEqS (docContentHash d) fp.contentHash)

/-- Document case 2 of the level-2 loop: same `metadata_hash`, different hash. -/
def l2MetaPred (fp : Fingerprint) (d : Doc) : Bool :=
  optEqS d.metadataHash fp.metadataHash && !(optEqS (docContentHash d) fp.contentHash)

/-- The whole level-2 loop body for one document. -/
def l2Pred (fp : Fingerprint) (docId : Option String) (isChunk : Bool) (d : Doc) : Bool :=
  (isChunk && l2ChunkPred fp docId d) || l2DocIdPred fp docId d || l2MetaPred fp d

/-- The reason string attached to a level-2 hit, by the sub-case that fired. -/
def l2Reason (fp : Fingerprint) (docId : Option String) (isChunk : Bool) (d : Doc) : String :=
  if isChunk && l2ChunkPred fp docId d then
    "Chunk update: same chunk_id (" ++ (docId.getD "") ++ ") but different content_hash"
  else if l2DocIdPred fp docId d then
    "Content update: same doc_id (" ++ (docId.getD "") ++ ") but different content_hash"
  else
    "Content update: same metadata_hash (" ++ fp.metadataHash.take 8
      ++ "...) but different content_hash"

/-- Result triple of `check_duplicate_level`. -/
structure DupResult where
  level : Nat
  matching : Option Doc
  reason : String
deriving DecidableEq

/-- `deduplication_service.check_duplicate_level`: two sequential scans over
the candidate documents, level 1 first, then level 2; level 3 is stubbed and
everything else is level 4. -/
def check_duplicate_level (fp : Fingerprint) (docs : List Doc)
    (docId : Option String := none) (isChunk : Bool := false) : DupResult :=
  if docs.isEmpty then ⟨4, none, "No existing documents found"⟩
  else
    match docs.find? (l1Pred fp) with
    | some d =>
        ⟨1, some d, "Exact duplicate " ++ (if isChunk then "chunk" else "document")
            ++ ": same content_hash (" ++ fp.contentHash.take 8 ++ "...) and metadata_hash"⟩
    | none =>
        match docs.find? (l2Pred fp docId isChunk) with
        | some d => ⟨2, some d, l2Reason fp docId isChunk d⟩
        | none =>
            ⟨4, none, "New " ++ (if isChunk then "chunk" else "document")
                ++ ": different content_hash and/or metadata_hash"⟩

/-- Action-specific data returned by `decide_storage_action`. -/
structure ActionData where
  level : Nat
  fingerprint : Fingerprint
  matchingDocId : Option String
  reason : String
  existingDocId : Option String := none
  oldDocId : Option String := none
  oldVersion : Option String := none
  warning : Option String := none
deriving DecidableEq

/-- `deduplication_service.decide_storage_action`. -/
def decide_storage_action (level : Nat) (fp : Fingerprint) (matching : Option Doc) :
    String × ActionData :=
  let mid := matching.bind (fun d => d.id)
  if level == 1 then
    ("skip", ⟨level, fp, mid, "Exact duplicate detected - skipping storage", mid, none, none, none⟩)
  else if level == 2 then
    ("update", ⟨level, fp, mid, "Content update detected - will deprecate old version",
      none, mid, matching.bind (fun d => d.version), none⟩)
  else if level == 3 then
    ("warn", ⟨level, fp, mid, "High semantic similarity detected - storing with warning flag",
      none, none, none, some "Content is semantically similar to existing documents"⟩)
  else
    ("store", ⟨level, fp, mid, "New content - storing normally", none, none, none, none⟩)

/-- C5, counterexample: with an empty-string `doc_id` on both sides the
candidate has "the same doc_id" and a different `content_hash`, and there is
no level-1 match, yet the detector falls through the falsy-`doc_id` guard and
returns level 4 (store), not level 2 (update). -/
theorem C5_counterexample :
    (∃ d ∈ [({ docId := some "", hashContent := some "c2",
               metadataHash := some "m2" } : Doc)],
        d.docId = some "" ∧ docContentHash d ≠ some "c1" ∧ d.metadataHash ≠ some "m1")
    ∧ (check_duplicate_level ⟨"c1", "m1", "c1:m1"⟩
        [{ docId := some "", hashContent := some "c2", metadataHash := some "m2" }]
        (some "") false).level = 4
    ∧ (decide_storage_action 4 ⟨"c1", "m1", "c1:m1"⟩ none).1 = "store" := by
  decide

/-- Spec-side level-1 trigger: an existing record with the same content hash
and the same metadata hash. -/
def specLevel1Match (fp : Fingerprint) (d : Doc) : Prop :=
  docContentHash d = some fp.contentHash ∧ d.metadataHash = some fp.metadataHash

/-- Spec-side level-2 trigger, amended to require a non-empty `doc_id`:
(same non-empty doc_id OR same metadata_hash) AND different content_hash. -/
def specLevel2Match (fp : Fingerprint) (docId : Option String) (d : Doc) : Prop :=
  ((∃ s, docId = some s ∧ s ≠ "" ∧ d.docId = some s)
    ∨ d.metadataHash = some fp.metadataHash)
  ∧ docContentHash d ≠ some fp.contentHash

theorem pyTruthyS_iff (o : Option String) : pyTruthyS o = true ↔ ∃ s, o = some s ∧ s ≠ "" := by
  cases o <;> simp [pyTruthyS]

theorem l1Pred_iff (fp : Fingerprint) (d : Doc) :
    l1Pred fp d = true ↔ specLevel1Match fp d := by
  simp [l1Pred, optEqS, specLevel1Match]

theorem l2Pred_false_iff (fp : Fingerprint) (docId : Option String) (d : Doc) :
    l2Pred fp docId false d = true ↔ specLevel2Match fp docId d := by
  simp only [l2Pred, Bool.false_and, Bool.false_or, Bool.or_eq_true, l2DocIdPred, l2MetaPred,
    Bool.and_eq_true, pyTruthyS_iff, optEqS, beq_iff_eq, Bool.not_eq_true, bne_iff_ne,
    Bool.not_eq_true', beq_eq_false_iff_ne, specLevel2Match, ne_eq]
  constructor
  · rintro (⟨⟨⟨⟨s, hs, hsne⟩, ⟨t, ht, htne⟩⟩, heq⟩, hne⟩ | ⟨hm, hne⟩)
    · exact ⟨Or.inl ⟨s, hs, hsne, by rw [heq, hs]⟩, hne⟩
    · exact ⟨Or.inr hm, hne⟩
  · rintro ⟨⟨s, hs, hsne, hds⟩ | hm, hne⟩
    · exact Or.inl ⟨⟨⟨⟨s, hs, hsne⟩, ⟨s, hds, hsne⟩⟩, by rw [hds, hs]⟩, hne⟩
    · exact Or.inr ⟨hm, hne⟩

/-- C5 (amended): levels are evaluated in order 1, 2, 4 and the first match
wins; level 1 iff some candidate matches both hashes; otherwise level 2 iff
some candidate has the same non-empty doc_id or the same metadata_hash with a
different content_hash (an empty-string doc_id is falsy in the source and is
ignored); otherwise level 4; the emitted actions are skip, update, store. -/
theorem C5_level_order_amended (fp : Fingerprint) (docs : List Doc) (docId : Option String) :
    ((check_duplicate_level fp docs docId false).level = 1
        ↔ ∃ d ∈ docs, specLevel1Match fp d)
    ∧ ((check_duplicate_level fp docs docId false).level = 2
        ↔ (¬ ∃ d ∈ docs, specLevel1Match fp d) ∧ ∃ d ∈ docs, specLevel2Match fp docId d)
    ∧ ((check_duplicate_level fp docs docId false).level = 4
        ↔ (¬ ∃ d ∈ docs, specLevel1Match fp d) ∧ ¬ ∃ d ∈ docs, specLevel2Match fp docId d)
    ∧ (∀ m : Option Doc,
        (decide_storage_action 1 fp m).1 = "skip"
        ∧ (decide_storage_action 2 fp m).1 = "update"
        ∧ (decide_storage_action 4 fp m).1 = "store") := by
  have hex1 : (∃ d ∈ docs, specLevel1Match fp d) ↔ (docs.find? (l1Pred fp)).isSome := by
    rw [List.find?_isSome]
    constructor
    · rintro ⟨d, hd, hs⟩; exact ⟨d, hd, (l1Pred_iff fp d).mpr hs⟩
    · rintro ⟨d, hd, hs⟩; exact ⟨d, hd, (l1Pred_iff fp d).mp hs⟩
  have hex2 : (∃ d ∈ docs, specLevel2Match fp docId d)
      ↔ (docs.find? (l2Pred fp docId false)).isSome := by
    rw [List.find?_isSome]
    constructor
    · rintro ⟨d, hd, hs⟩; exact ⟨d, hd, (l2Pred_false_iff fp docId d).mpr hs⟩
    · rintro ⟨d, hd, hs⟩; exact ⟨d, hd, (l2Pred_false_iff fp docId d).mp hs⟩
  refine ⟨?_, ?_, ?_, fun m => ⟨rfl, rfl, rfl⟩⟩ <;>
  · by_cases hemp : docs.isEmpty
    · have hd : docs = [] := List.isEmpty_iff.mp hemp
      subst hd
      simp [check_duplicate_level]
    · rw [check_duplicate_level, if_neg (by simp [hemp])]
      rcases hf1 : docs.find? (l1Pred fp) with _ | d1
      · rcases hf2 : docs.find? (l2Pred fp docId false) with _ | d2
        · simp [hex1, hex2, hf1, hf2]
        · simp [hex1, hex2, hf1, hf2]
      · simp [hex1, hex2, hf1]

/-! ## chunk_service.compare_chunks -/

/-- `meta.get('chunk_index')` of a chunk document. -/
def chunkIdx (d : Doc) : Option Int := d.chunkIndex

/-- The chunk's content hash as `compare_chunks` reads it
(`meta.get('hash_content') or meta.get('content_hash')`, so `None` when both
are missing). -/
def chunkHash (d : Doc) : Option String := pyOrS d.hashContent d.contentHash

/-- Insert-or-replace into an association list, keeping the first-insertion
position of an existing key (Python dict assignment). -/
def alistInsert (m : List (Option Int × Doc)) (k : Option Int) (v : Doc) :
    List (Option Int × Doc) :=
  if m.any (fun p => p.1 == k) then m.map (fun p => if p.1 == k then (k, v) else p)
  else m ++ [(k, v)]

/-- `{chunk.meta.get('chunk_index'): chunk for chunk in old_chunks}` (later
entries overwrite earlier ones). -/
def chunksByIndex (l : List Doc) : List (Option Int × Doc) :=
  l.foldl (fun m c => alistInsert m c.chunkIndex c) []

/-- Dict lookup in the association list. -/
def alistLookup (m : List (Option Int × Doc)) (k : Option Int) : Option Doc :=
  (m.find? (fun p => p.1 == k)).map (fun p => p.2)

/-- Loop state of `compare_chunks`: the three output accumulators and the
`deleted_indices` set (a duplicate-free list). -/
structure DiffState where
  unchanged : List Doc
  changed : List Doc
  newList : List Doc
  deletedIdx : List (Option Int)
deriving DecidableEq

/-- One iteration of the `for new_chunk in new_chunks` loop. -/
def compareStep (dict : List (Option Int × Doc)) (st : DiffState) (nc : Doc) : DiffState :=
  match alistLookup dict nc.chunkIndex with
  | some old =>
      if chunkHash nc == chunkHash old then
        { st with unchanged := st.unchanged ++ [old],
                  deletedIdx := st.deletedIdx.filter (fun j => j != nc.chunkIndex) }
      else
        { st with changed := st.changed ++ [nc],
                  deletedIdx := st.deletedIdx.filter (fun j => j != nc.chunkIndex) }
  | none => { st with newList := st.newList ++ [nc] }

/-- The four output categories of `compare_chunks`. -/
structure ChunkDiff where
  unchanged : List Doc
  changed : List Doc
  newChunks : List Doc
  deleted : List Doc
deriving DecidableEq

/-- `chunk_service.compare_chunks`: classify new chunks against the
by-index dict of old chunks; whatever stays in `deleted_indices` is looked
up again to form the deleted list. -/
def compare_chunks (old new : List Doc) : ChunkDiff :=
  let dict := chunksByIndex old
  let st := new.foldl (compareStep dict) ⟨[], [], [], dict.map (fun p => p.1)⟩
  ⟨st.unchanged, st.changed, st.newList, st.deletedIdx.filterMap (alistLookup dict)⟩

/-- C6, counterexample: two new chunks sharing one `chunk_index` are both
matched against the same old chunk, so the old side is classified twice:
|unchanged| + |changed| + |deleted| = 2 although there is only 1 old chunk. -/
theorem C6_counterexample :
    ((compare_chunks
        [{ chunkIndex := some 0, hashContent := some "h" }]
        [{ chunkIndex := some 0, hashContent := some "h" },
         { chunkIndex := some 0, hashContent := some "h", content := "b" }]).unchanged.length
      + (compare_chunks
        [{ chunkIndex := some 0, hashContent := some "h" }]
        [{ chunkIndex := some 0, hashContent := some "h" },
         { chunkIndex := some 0, hashContent := some "h", content := "b" }]).changed.length
      + (compare_chunks
        [{ chunkIndex := some 0, hashContent := some "h" }]
        [{ chunkIndex := some 0, hashContent := some "h" },
         { chunkIndex := some 0, hashContent := some "h", content := "b" }]).deleted.length)
    ≠ ([({ chunkIndex := some 0, hashContent := some "h" } : Doc)]).length := by
  decide

/-! ### Invariants of the chunk diff (claim C6) -/

/-- Occurrences of an index value in a list of indices. -/
def countIdx (i : Option Int) : List (Option Int) → Nat
  | [] => 0
  | j :: t => (if j = i then 1 else 0) + countIdx i t

theorem countIdx_append (i : Option Int) (l m : List (Option Int)) :
    countIdx i (l ++ m) = countIdx i l + countIdx i m := by
  induction l with
  | nil => simp [countIdx]
  | cons j t ih => simp [countIdx, ih]; omega

theorem countIdx_filter_ne (i i0 : Option Int) (l : List (Option Int)) :
    countIdx i (l.filter (fun j => j != i0)) = if i = i0 then 0 else countIdx i l := by
  induction l with
  | nil => simp [countIdx]
  | cons j t ih =>
      by_cases hj : j = i0
      · subst hj
        rw [List.filter_cons_of_neg (by simp)]
        rw [ih]
        by_cases hi : i = j
        · rw [if_pos hi, if_pos hi]
        · rw [if_neg hi, if_neg hi, countIdx, if_neg (fun he => hi he.symm)]
          omega
      · rw [List.filter_cons_of_pos (by simp [hj])]
        rw [countIdx, ih]
        by_cases hi : i = i0
        · rw [if_pos hi, if_pos hi, if_neg (fun he => hj (he.trans hi))]
        · rw [if_neg hi, if_neg hi, countIdx]

theorem countIdx_pos_of_mem (i : Option Int) (l : List (Option Int)) (h : i ∈ l) :
    1 ≤ countIdx i l := by
  induction l with
  | nil => simp at h
  | cons j t ih =>
      rcases List.mem_cons.mp h with he | ht
      · simp [countIdx, he]
      · have := ih ht
        simp [countIdx]
        omega

theorem countIdx_eq_zero (i : Option Int) (l : List (Option Int)) (h : i ∉ l) :
    countIdx i l = 0 := by
  induction l with
  | nil => rfl
  | cons a r ih =>
      simp only [List.mem_cons, not_or] at h
      simp [countIdx, Ne.symm h.1, ih h.2]

theorem countIdx_eq_one (i : Option Int) (l : List (Option Int)) (hnd : l.Nodup) (h : i ∈ l) :
    countIdx i l = 1 := by
  induction l with
  | nil => simp at h
  | cons j t ih =>
      rcases List.mem_cons.mp h with he | ht
      · subst he
        have hni : i ∉ t := (List.nodup_cons.mp hnd).1
        simp [countIdx, countIdx_eq_zero i t hni]
      · have hne : j ≠ i := by
          rintro rfl
          exact (List.nodup_cons.mp hnd).1 ht
        simp [countIdx, hne, ih (List.nodup_cons.mp hnd).2 ht]

theorem length_filter_ne (i0 : Option Int) (l : List (Option Int))
    (hnd : l.Nodup) (h : i0 ∈ l) :
    (l.filter (fun j => j != i0)).length + 1 = l.length := by
  induction l with
  | nil => simp at h
  | cons a t ih =>
      rcases List.mem_cons.mp h with he | ht
      · rw [List.filter_cons_of_neg (by simp [he.symm])]
        have hni : a ∉ t := (List.nodup_cons.mp hnd).1
        have hfe : t.filter (fun x => x != i0) = t := by
          apply List.filter_eq_self.mpr
          intro b hb
          have hbne : b ≠ i0 := by
            rintro rfl
            exact hni (he ▸ hb)
          simp [hbne]
        rw [hfe]
        simp
      · have hne : a ≠ i0 := by
          rintro rfl
          exact (List.nodup_cons.mp hnd).1 ht
        rw [List.filter_cons_of_pos (by simp [hne])]
        simp only [List.length_cons]
        have := ih (List.nodup_cons.mp hnd).2 ht
        omega

theorem alistLookup_isSome_of_mem_keys (m : List (Option Int × Doc)) (k : Option Int)
    (h : k ∈ m.map (fun p => p.1)) : (alistLookup m k).isSome := by
  rcases List.mem_map.mp h with ⟨p, hp, he⟩
  have h2 : (m.find? (fun q => q.1 == k)).isSome :=
    List.find?_isSome.mpr ⟨p, hp, by simp [he]⟩
  unfold alistLookup
  rcases hx : m.find? (fun q => q.1 == k) with _ | q
  · rw [hx] at h2; simp at h2
  · rw [hx]; rfl

theorem mem_keys_of_alistLookup_isSome (m : List (Option Int × Doc)) (k : Option Int)
    (h : (alistLookup m k).isSome) : k ∈ m.map (fun p => p.1) := by
  unfold alistLookup at h
  rcases hx : m.find? (fun q => q.1 == k) with _ | q
  · rw [hx] at h; simp at h
  · have hq := List.find?_some hx
    have hqm := List.mem_of_find?_eq_some hx
    have : q.1 = k := by simpa using hq
    exact this ▸ List.mem_map.mpr ⟨q, hqm, rfl⟩

theorem chunksByIndex_eq (l : List Doc) (h : (l.map chunkIdx).Nodup) :
    chunksByIndex l = l.map (fun c => (c.chunkIndex, c)) := by
  have haux : ∀ (l2 : List Doc) (m : List (Option Int × Doc)),
      (∀ c ∈ l2, c.chunkIndex ∉ m.map (fun p => p.1)) → (l2.map chunkIdx).Nodup →
      l2.foldl (fun acc c => alistInsert acc c.chunkIndex c) m
        = m ++ l2.map (fun c => (c.chunkIndex, c)) := by
    intro l2
    induction l2 with
    | nil => intro m _ _; simp
    | cons c rest ih =>
        intro m hdis hnd
        rw [List.foldl_cons]
        have hkey : (m.any (fun p => p.1 == c.chunkIndex)) = false := by
          rw [List.any_eq_false]
          intro p hp
          simp only [beq_iff_eq]
          intro he
          exact hdis c (by simp) (List.mem_map.mpr ⟨p, hp, he⟩)
        rw [show alistInsert m c.chunkIndex c = m ++ [(c.chunkIndex, c)] by
          unfold alistInsert; rw [hkey]; rfl]
        rw [ih (m ++ [(c.chunkIndex, c)]) ?_ ?_]
        · simp
        · intro d hd
          simp only [List.map_append, List.mem_append, not_or]
          constructor
          · exact fun hm => hdis d (by simp [hd]) hm
          · simp only [List.map_cons, List.map_nil, List.mem_singleton]
            intro he
            have hcm : c.chunkIndex ∈ rest.map chunkIdx :=
              List.mem_map.mpr ⟨d, hd, show chunkIdx d = c.chunkIndex from he⟩
            exact (List.nodup_cons.mp hnd).1 (by simpa [chunkIdx] using hcm)
        · exact (List.nodup_cons.mp hnd).2
  have := haux l [] (by simp) h
  simpa [chunksByIndex] using this

theorem alistLookup_val (l : List Doc) (hnd : (l.map chunkIdx).Nodup)
    (k : Option Int) (d : Doc)
    (h : alistLookup (chunksByIndex l) k = some d) : d.chunkIndex = k := by
  rw [chunksByIndex_eq l hnd] at h
  unfold alistLookup at h
  rcases hx : (l.map (fun c => (c.chunkIndex, c))).find? (fun q => q.1 == k) with _ | q
  · rw [hx] at h; simp at h
  · rw [hx] at h
    have hq := List.find?_some hx
    have hqm := List.mem_of_find?_eq_some hx
    rcases List.mem_map.mp hqm with ⟨c, _, he⟩
    have hd : d = q.2 := by simpa using h.symm
    have hk : q.1 = k := by simpa using hq
    have hqe : q = (c.chunkIndex, c) := he.symm
    subst hqe
    rw [hd]
    exact hk

theorem compareFold_invariant (dict : List (Option Int × Doc))
    (hdictval : ∀ k d, alistLookup dict k = some d → d.chunkIndex = k) :
    ∀ (rem : List Doc) (st : DiffState),
      st.deletedIdx.Nodup →
      (∀ i ∈ st.deletedIdx, i ∈ dict.map (fun p => p.1)) →
      (rem.map chunkIdx).Nodup →
      (∀ c ∈ rem, (alistLookup dict c.chunkIndex).isSome → c.chunkIndex ∈ st.deletedIdx) →
      ((rem.foldl (compareStep dict) st).deletedIdx.Nodup
      ∧ (∀ i ∈ (rem.foldl (compareStep dict) st).deletedIdx, i ∈ dict.map (fun p => p.1))
      ∧ (rem.foldl (compareStep dict) st).unchanged.length
          + (rem.foldl (compareStep dict) st).changed.length
          + (rem.foldl (compareStep dict) st).deletedIdx.length
          = st.unchanged.length + st.changed.length + st.deletedIdx.length
      ∧ (rem.foldl (compareStep dict) st).unchanged.length
          + (rem.foldl (compareStep dict) st).changed.length
          + (rem.foldl (compareStep dict) st).newList.length
          = st.unchanged.length + st.changed.length + st.newList.length + rem.length
      ∧ (∀ i, countIdx i ((rem.foldl (compareStep dict) st).unchanged.map chunkIdx)
            + countIdx i ((rem.foldl (compareStep dict) st).changed.map chunkIdx)
            + countIdx i (rem.foldl (compareStep dict) st).deletedIdx
          = countIdx i (st.unchanged.map chunkIdx) + countIdx i (st.changed.map chunkIdx)
            + countIdx i st.deletedIdx)
      ∧ (∀ i, countIdx i ((rem.foldl (compareStep dict) st).unchanged.map chunkIdx)
            + countIdx i ((rem.foldl (compareStep dict) st).changed.map chunkIdx)
            + countIdx i ((rem.foldl (compareStep dict) st).newList.map chunkIdx)
          = countIdx i (st.unchanged.map chunkIdx) + countIdx i (st.changed.map chunkIdx)
            + countIdx i (st.newList.map chunkIdx) + countIdx i (rem.map chunkIdx))) := by
  intro rem
  induction rem with
  | nil =>
      intro st h1 h2 h3 h4
      refine ⟨h1, h2, rfl, by simp, fun i => rfl, fun i => by simp [countIdx]⟩
  | cons nc rest ih =>
      intro st hnd hsub hremnd hremdel
      rw [List.foldl_cons]
      have hremnd2 : (rest.map chunkIdx).Nodup := by
        rw [List.map_cons] at hremnd
        exact (List.nodup_cons.mp hremnd).2
      have hheadnotin : chunkIdx nc ∉ rest.map chunkIdx := by
        rw [List.map_cons] at hremnd
        exact (List.nodup_cons.mp hremnd).1
      rcases hl : alistLookup dict nc.chunkIndex with _ | old
      · have hstep : compareStep dict st nc = { st with newList := st.newList ++ [nc] } := by
          rw [compareStep, hl]
        rw [hstep]
        obtain ⟨a1, a2, a3, a4, a5, a6⟩ := ih { st with newList := st.newList ++ [nc] }
          hnd hsub hremnd2 (fun c hc hs => hremdel c (List.mem_cons_of_mem nc hc) hs)
        refine ⟨a1, a2, by simpa using a3, ?_, fun i => by simpa using a5 i, fun i => ?_⟩
        · simp only [List.length_append, List.length_cons, List.length_nil] at a4 ⊢
          omega
        · have := a6 i
          simp only [List.map_append, countIdx_append, List.map_cons, List.map_nil,
            countIdx] at this ⊢
          omega
      · have hidx : old.chunkIndex = nc.chunkIndex := hdictval _ _ hl
        have hmemdel : nc.chunkIndex ∈ st.deletedIdx :=
          hremdel nc (by simp) (by rw [hl]; rfl)
        have hcnt1 : countIdx nc.chunkIndex st.deletedIdx = 1 :=
          countIdx_eq_one _ _ hnd hmemdel
        have hlen : (st.deletedIdx.filter (fun j => j != nc.chunkIndex)).length + 1
            = st.deletedIdx.length := length_filter_ne _ _ hnd hmemdel
        have hnd2 : (st.deletedIdx.filter (fun j => j != nc.chunkIndex)).Nodup := hnd.filter _
        have hsub2 : ∀ i ∈ st.deletedIdx.filter (fun j => j != nc.chunkIndex),
            i ∈ dict.map (fun p => p.1) := fun i hi => hsub i (List.mem_filter.mp hi).1
        have hremdel2 : ∀ c ∈ rest, (alistLookup dict c.chunkIndex).isSome →
            c.chunkIndex ∈ st.deletedIdx.filter (fun j => j != nc.chunkIndex) := by
          intro c hc hs
          apply List.mem_filter.mpr
          refine ⟨hremdel c (List.mem_cons_of_mem nc hc) hs, ?_⟩
          have hne : c.chunkIndex ≠ nc.chunkIndex := by
            intro he
            apply hheadnotin
            have hsw : chunkIdx nc = chunkIdx c := by simp [chunkIdx, he]
            rw [hsw]
            exact List.mem_map.mpr ⟨c, hc, rfl⟩
          simpa using hne
        by_cases hh : (chunkHash nc == chunkHash old) = true
        · have hstep : compareStep dict st nc
              = { st with unchanged := st.unchanged ++ [old],
                          deletedIdx := st.deletedIdx.filter (fun j => j != nc.chunkIndex) } := by
            rw [compareStep, hl]
            simp only [hh, if_true]
          rw [hstep]
          obtain ⟨a1, a2, a3, a4, a5, a6⟩ := ih
            { st with unchanged := st.unchanged ++ [old],
                      deletedIdx := st.deletedIdx.filter (fun j => j != nc.chunkIndex) }
            hnd2 hsub2 hremnd2 hremdel2
          dsimp only at a3 a4
          refine ⟨a1, a2, ?_, ?_, fun i => ?_, fun i => ?_⟩
          · simp only [List.length_append, List.length_cons, List.length_nil] at a3 ⊢
            omega
          · simp only [List.length_append, List.length_cons, List.length_nil] at a4 ⊢
            omega
          · rw [a5 i]
            dsimp only
            rw [countIdx_filter_ne i nc.chunkIndex st.deletedIdx]
            simp only [List.map_append, countIdx_append, List.map_cons, List.map_nil,
              countIdx, chunkIdx, hidx]
            by_cases hi : i = nc.chunkIndex
            · subst hi
              simp [hcnt1]
              omega
            · simp [hi, Ne.symm hi]
          · rw [a6 i]
            dsimp only
            simp only [List.map_append, countIdx_append, List.map_cons, List.map_nil,
              countIdx, chunkIdx, hidx]
            omega
        · have hstep : compareStep dict st nc
              = { st with changed := st.changed ++ [nc],
                          deletedIdx := st.deletedIdx.filter (fun j => j != nc.chunkIndex) } := by
            rw [compareStep, hl]
            simp only [Bool.not_eq_true] at hh
            simp only [hh, Bool.false_eq_true, if_false]
          rw [hstep]
          obtain ⟨a1, a2, a3, a4, a5, a6⟩ := ih
            { st with changed := st.changed ++ [nc],
                      deletedIdx := st.deletedIdx.filter (fun j => j != nc.chunkIndex) }
            hnd2 hsub2 hremnd2 hremdel2
          dsimp only at a3 a4
          refine ⟨a1, a2, ?_, ?_, fun i => ?_, fun i => ?_⟩
          · simp only [List.length_append, List.length_cons, List.length_nil] at a3 ⊢
            omega
          · simp only [List.length_append, List.length_cons, List.length_nil] at a4 ⊢
            omega
          · rw [a5 i]
            dsimp only
            rw [countIdx_filter_ne i nc.chunkIndex st.deletedIdx]
            simp only [List.map_append, countIdx_append, List.map_cons, List.map_nil,
              countIdx, chunkIdx]
            by_cases hi : i = nc.chunkIndex
            · subst hi
              simp [hcnt1]
              omega
            · simp [hi, Ne.symm hi]
          · rw [a6 i]
            dsimp only
            simp only [List.map_append, countIdx_append, List.map_cons, List.map_nil,
              countIdx, chunkIdx]
            omega

theorem filterMap_alistLookup (dict : List (Option Int × Doc))
    (hdictval : ∀ k d, alistLookup dict k = some d → d.chunkIndex = k)
    (l : List (Option Int)) (hsub : ∀ i ∈ l, i ∈ dict.map (fun p => p.1)) :
    (l.filterMap (alistLookup dict)).map chunkIdx = l := by
  induction l with
  | nil => rfl
  | cons i t ih =>
      have hs := alistLookup_isSome_of_mem_keys dict i (hsub i (by simp))
      rcases hx : alistLookup dict i with _ | d
      · rw [hx] at hs; simp at hs
      · rw [List.filterMap_cons, hx]
        simp only [List.map_cons]
        rw [ih (fun j hj => hsub j (by simp [hj]))]
        rw [show chunkIdx d = i from hdictval i d hx]

/-- C6 (amended): when the chunk indices are pairwise distinct within the old
list and within the new list (as the chunker produces them), the diff is
complete: |unchanged| + |changed| + |new| = |new_chunks|,
|unchanged| + |changed| + |deleted| = |old_chunks|, and per index the
classifications cover each old index exactly once (unchanged/changed/deleted)
and each new index exactly once (unchanged/changed/new).  Without the
distinctness hypotheses the old-side identities fail. -/
theorem C6_diff_complete_amended (old new : List Doc)
    (hold : (old.map chunkIdx).Nodup) (hnew : (new.map chunkIdx).Nodup) :
    ((compare_chunks old new).unchanged.length + (compare_chunks old new).changed.length
        + (compare_chunks old new).newChunks.length = new.length)
    ∧ ((compare_chunks old new).unchanged.length + (compare_chunks old new).changed.length
        + (compare_chunks old new).deleted.length = old.length)
    ∧ (∀ i, countIdx i ((compare_chunks old new).unchanged.map chunkIdx)
          + countIdx i ((compare_chunks old new).changed.map chunkIdx)
          + countIdx i ((compare_chunks old new).deleted.map chunkIdx)
        = countIdx i (old.map chunkIdx))
    ∧ (∀ i, countIdx i ((compare_chunks old new).unchanged.map chunkIdx)
          + countIdx i ((compare_chunks old new).changed.map chunkIdx)
          + countIdx i ((compare_chunks old new).newChunks.map chunkIdx)
        = countIdx i (new.map chunkIdx)) := by
  have hdict := chunksByIndex_eq old hold
  have hdictval : ∀ k d, alistLookup (chunksByIndex old) k = some d → d.chunkIndex = k :=
    fun k d h => alistLookup_val old hold k d h
  have hkeys : (chunksByIndex old).map (fun p => p.1) = old.map chunkIdx := by
    rw [hdict, List.map_map]
    rfl
  have hkeysnd : ((chunksByIndex old).map (fun p => p.1)).Nodup := by
    rw [hkeys]; exact hold
  obtain ⟨a1, a2, a3, a4, a5, a6⟩ := compareFold_invariant (chunksByIndex old) hdictval new
    ⟨[], [], [], (chunksByIndex old).map (fun p => p.1)⟩ hkeysnd (fun i hi => hi) hnew
    (fun c hc hs => mem_keys_of_alistLookup_isSome _ _ hs)
  dsimp only at a3 a4 a5 a6
  have hdelmap : ((new.foldl (compareStep (chunksByIndex old)) ⟨[], [], [], (chunksByIndex old).map (fun p => p.1)⟩).deletedIdx.filterMap
      (alistLookup (chunksByIndex old))).map chunkIdx = (new.foldl (compareStep (chunksByIndex old)) ⟨[], [], [], (chunksByIndex old).map (fun p => p.1)⟩).deletedIdx :=
    filterMap_alistLookup _ hdictval _ a2
  have hdellen : ((new.foldl (compareStep (chunksByIndex old)) ⟨[], [], [], (chunksByIndex old).map (fun p => p.1)⟩).deletedIdx.filterMap
      (alistLookup (chunksByIndex old))).length = (new.foldl (compareStep (chunksByIndex old)) ⟨[], [], [], (chunksByIndex old).map (fun p => p.1)⟩).deletedIdx.length := by
    have hl2 := congrArg List.length hdelmap
    simpa using hl2
  refine ⟨?_, ?_, fun i => ?_, fun i => ?_⟩
  · show (new.foldl (compareStep (chunksByIndex old)) ⟨[], [], [], (chunksByIndex old).map (fun p => p.1)⟩).unchanged.length + (new.foldl (compareStep (chunksByIndex old)) ⟨[], [], [], (chunksByIndex old).map (fun p => p.1)⟩).changed.length + (new.foldl (compareStep (chunksByIndex old)) ⟨[], [], [], (chunksByIndex old).map (fun p => p.1)⟩).newList.length = new.length
    simpa using a4
  · show (new.foldl (compareStep (chunksByIndex old)) ⟨[], [], [], (chunksByIndex old).map (fun p => p.1)⟩).unchanged.length + (new.foldl (compareStep (chunksByIndex old)) ⟨[], [], [], (chunksByIndex old).map (fun p => p.1)⟩).changed.length
        + ((new.foldl (compareStep (chunksByIndex old)) ⟨[], [], [], (chunksByIndex old).map (fun p => p.1)⟩).deletedIdx.filterMap (alistLookup (chunksByIndex old))).length = old.length
    rw [hdellen, a3]
    have hkl := congrArg List.length hkeys
    simp only [List.length_map] at hkl
    simpa using hkl
  · show countIdx i ((new.foldl (compareStep (chunksByIndex old)) ⟨[], [], [], (chunksByIndex old).map (fun p => p.1)⟩).unchanged.map chunkIdx) + countIdx i ((new.foldl (compareStep (chunksByIndex old)) ⟨[], [], [], (chunksByIndex old).map (fun p => p.1)⟩).changed.map chunkIdx)
        + countIdx i (((new.foldl (compareStep (chunksByIndex old)) ⟨[], [], [], (chunksByIndex old).map (fun p => p.1)⟩).deletedIdx.filterMap (alistLookup (chunksByIndex old))).map chunkIdx)
        = countIdx i (old.map chunkIdx)
    rw [hdelmap, a5 i]
    have hkc := congrArg (countIdx i) hkeys
    simpa [countIdx] using hkc
  · show countIdx i ((new.foldl (compareStep (chunksByIndex old)) ⟨[], [], [], (chunksByIndex old).map (fun p => p.1)⟩).unchanged.map chunkIdx) + countIdx i ((new.foldl (compareStep (chunksByIndex old)) ⟨[], [], [], (chunksByIndex old).map (fun p => p.1)⟩).changed.map chunkIdx)
        + countIdx i ((new.foldl (compareStep (chunksByIndex old)) ⟨[], [], [], (chunksByIndex old).map (fun p => p.1)⟩).newList.map chunkIdx) = countIdx i (new.map chunkIdx)
    rw [a6 i]
    simp [countIdx]

/-- Witness for `C6_diff_complete_amended` on a concrete diff (one unchanged,
one changed, one new, one deleted chunk). -/
theorem C6_diff_complete_amended_witness :
    (([{ chunkIndex := some 0, hashContent := some "h0" },
       { chunkIndex := some 1, hashContent := some "h1" }] : List Doc).map chunkIdx).Nodup
    ∧ (([{ chunkIndex := some 0, hashContent := some "h0" },
         { chunkIndex := some 2, hashContent := some "h2" }] : List Doc).map chunkIdx).Nodup
    ∧ ((compare_chunks
          [{ chunkIndex := some 0, hashContent := some "h0" },
           { chunkIndex := some 1, hashContent := some "h1" }]
          [{ chunkIndex := some 0, hashContent := some "h0" },
           { chunkIndex := some 2, hashContent := some "h2" }]).unchanged.length
        + (compare_chunks
          [{ chunkIndex := some 0, hashContent := some "h0" },
           { chunkIndex := some 1, hashContent := some "h1" }]
          [{ chunkIndex := some 0, hashContent := some "h0" },
           { chunkIndex := some 2, hashContent := some "h2" }]).changed.length
        + (compare_chunks
          [{ chunkIndex := some 0, hashContent := some "h0" },
           { chunkIndex := some 1, hashContent := some "h1" }]
          [{ chunkIndex := some 0, hashContent := some "h0" },
           { chunkIndex := some 2, hashContent := some "h2" }]).deleted.length
        = 2) :=
  ⟨by decide, by decide,
   by
    have h := (C6_diff_complete_amended
      [{ chunkIndex := some 0, hashContent := some "h0" },
       { chunkIndex := some 1, hashContent := some "h1" }]
      [{ chunkIndex := some 0, hashContent := some "h0" },
       { chunkIndex := some 2, hashContent := some "h2" }]
      (by decide) (by decide)).2.1
    simpa using h⟩

/-! ## bulk_operations_service._convert_haystack_filter_to_qdrant -/

/-- The Haystack filter DSL: comparison nodes and logic nodes. -/
inductive HFilter where
  | comparison (field : String) (operator : String) (value : PyVal)
  | logic (operator : String) (conditions : List HFilter)

/-- A Qdrant `Range(...)` payload (only the keyword actually passed is set). -/
structure QRange where
  gt : Option PyVal := none
  gte : Option PyVal := none
  lt : Option PyVal := none
  lte : Option PyVal := none

mutual
/-- A Qdrant filter condition: a field condition or a nested `Filter`. -/
inductive QCondition where
  | fieldMatch (key : String) (value : PyVal)
  | fieldMatchAny (key : String) (values : List PyVal)
  | fieldRange (key : String) (range : QRange)
  | sub (f : QFilter)

/-- A Qdrant `Filter` with its three condition arrays (an unset array is the
empty list, which is falsy exactly like `None` in the source's checks). -/
inductive QFilter where
  | mk (must : List QCondition) (mustNot : List QCondition) (should : List QCondition)
end

/-- The `must` array of a filter. -/
def QFilter.must : QFilter → List QCondition
  | .mk m _ _ => m

/-- The `must_not` array of a filter. -/
def QFilter.mustNot : QFilter → List QCondition
  | .mk _ m _ => m

/-- The `should` array of a filter. -/
def QFilter.should : QFilter → List QCondition
  | .mk _ _ s => s

/-- `if not isinstance(value, list): value = [value]`. -/
def asList (v : PyVal) : List PyVal :=
  match v with
  | .list xs => xs
  | v => [v]

/-- `Filter(**filter_dict) if filter_dict else None`: keys are only added for
nonempty arrays, so an all-empty merge yields `None`. -/
def mkFilterOpt (must mustNot should : List QCondition) : Option QFilter :=
  if must.isEmpty && mustNot.isEmpty && should.isEmpty then none
  else some (.mk must mustNot should)

/-- The comparison branch of the converter.  The source keeps the field name
unchanged in both arms of its `startswith("meta.")` check, so `key = field`. -/
def convertComparison (field : String) (operator : String) (value : PyVal) :
    Option QFilter :=
  let key := field
  if operator == "==" then some (.mk [.fieldMatch key value] [] [])
  else if operator == "!=" then some (.mk [] [.fieldMatch key value] [])
  else if operator == ">" then some (.mk [.fieldRange key { gt := some value }] [] [])
  else if operator == ">=" then some (.mk [.fieldRange key { gte := some value }] [] [])
  else if operator == "<" then some (.mk [.fieldRange key { lt := some value }] [] [])
  else if operator == "<=" then some (.mk [.fieldRange key { lte := some value }] [] [])
  else if operator == "in" then some (.mk [.fieldMatchAny key (asList value)] [] [])
  else if operator == "not in" then some (.mk [] [.fieldMatchAny key (asList value)] [])
  else none

mutual
/-- `bulk_operations_service._convert_haystack_filter_to_qdrant`. -/
def _convert_haystack_filter_to_qdrant : HFilter → Option QFilter
  | .comparison field operator value => convertComparison field operator value
  | .logic operator conditions =>
      let qconds := convertConditions conditions
      if qconds.isEmpty then none
      else if operator == "AND" then
        mkFilterOpt (qconds.flatMap QFilter.must) (qconds.flatMap QFilter.mustNot)
          (qconds.flatMap QFilter.should)
      else if operator == "OR" then some (.mk [] [] (qconds.map .sub))
      else if operator == "NOT" then
        match qconds with
        | [c] =>
            if !c.must.isEmpty then some (.mk [] c.must [])
            else if !c.mustNot.isEmpty then some (.mk c.mustNot [] [])
            else some (.mk [] (qconds.map .sub) [])
        | _ => some (.mk [] (qconds.map .sub) [])
      else none

/-- Convert each condition recursively, dropping the `None` results. -/
def convertConditions : List HFilter → List QFilter
  | [] => []
  | c :: rest =>
      match _convert_haystack_filter_to_qdrant c with
      | some q => q :: convertConditions rest
      | none => convertConditions rest
end

theorem convert_some_nonempty (c : HFilter) (f : QFilter)
    (h : _convert_haystack_filter_to_qdrant c = some f) :
    f.must ≠ [] ∨ f.mustNot ≠ [] ∨ f.should ≠ [] := by
  match c with
  | .comparison field operator value =>
      rw [_convert_haystack_filter_to_qdrant, convertComparison] at h
      split_ifs at h <;> first
        | (cases h; simp [QFilter.must, QFilter.mustNot, QFilter.should])
        | exact Option.noConfusion h
  | .logic operator conditions =>
      rw [_convert_haystack_filter_to_qdrant] at h
      by_cases hemp : (convertConditions conditions).isEmpty
      · rw [if_pos hemp] at h
        exact Option.noConfusion h
      · rw [if_neg hemp] at h
        by_cases hand : (operator == "AND") = true
        · rw [if_pos hand, mkFilterOpt] at h
          by_cases hall : (((convertConditions conditions).flatMap QFilter.must).isEmpty
              && ((convertConditions conditions).flatMap QFilter.mustNot).isEmpty
              && ((convertConditions conditions).flatMap QFilter.should).isEmpty) = true
          · rw [if_pos hall] at h
            exact Option.noConfusion h
          · rw [if_neg hall] at h
            cases h
            simp only [Bool.and_eq_true, List.isEmpty_iff, not_and] at hall
            simp only [QFilter.must, QFilter.mustNot, QFilter.should]
            by_cases h1 : (convertConditions conditions).flatMap QFilter.must = []
            · by_cases h2 : (convertConditions conditions).flatMap QFilter.mustNot = []
              · exact Or.inr (Or.inr (hall ⟨h1, h2⟩))
              · exact Or.inr (Or.inl h2)
            · exact Or.inl h1
        · rw [if_neg hand] at h
          by_cases hor : (operator == "OR") = true
          · rw [if_pos hor] at h
            cases h
            simp only [QFilter.should]
            refine Or.inr (Or.inr ?_)
            intro hmape
            rw [List.map_eq_nil_iff] at hmape
            rw [hmape] at hemp
            simp at hemp
          · rw [if_neg hor] at h
            by_cases hnot : (operator == "NOT") = true
            · rw [if_pos hnot] at h
              match hq : convertConditions conditions with
              | [] => rw [hq] at hemp; simp at hemp
              | [c1] =>
                  rw [hq] at h
                  dsimp only at h
                  split_ifs at h with hm hmn
                  · cases h
                    simp only [QFilter.mustNot]
                    exact Or.inr (Or.inl (by simpa using hm))
                  · cases h
                    simp only [QFilter.must]
                    exact Or.inl (by simpa using hmn)
                  · cases h
                    simp [QFilter.mustNot]
              | c1 :: c2 :: rest =>
                  rw [hq] at h
                  dsimp only at h
                  cases h
                  simp [QFilter.mustNot]
            · rw [if_neg hnot] at h
              exact Option.noConfusion h

/-- C9: the translation rules of the filter DSL.  Equality maps to
`must[match]`, inequality to `must_not[match]`, the range operators to
`must[range]`, `in`/`not in` to a match-any condition, AND merges the child
arrays, OR produces `should`, NOT flips `must` and `must_not`; and the AND of
an equality with a NOT of an equality gives a filter whose `must` holds the
first match and whose `must_not` holds the second. -/
theorem C9_filter_translation :
    (∀ key v, _convert_haystack_filter_to_qdrant (.comparison key "==" v)
        = some (.mk [.fieldMatch key v] [] []))
    ∧ (∀ key v, _convert_haystack_filter_to_qdrant (.comparison key "!=" v)
        = some (.mk [] [.fieldMatch key v] []))
    ∧ (∀ key v, _convert_haystack_filter_to_qdrant (.comparison key ">" v)
        = some (.mk [.fieldRange key { gt := some v }] [] []))
    ∧ (∀ key v, _convert_haystack_filter_to_qdrant (.comparison key ">=" v)
        = some (.mk [.fieldRange key { gte := some v }] [] []))
    ∧ (∀ key v, _convert_haystack_filter_to_qdrant (.comparison key "<" v)
        = some (.mk [.fieldRange key { lt := some v }] [] []))
    ∧ (∀ key v, _convert_haystack_filter_to_qdrant (.comparison key "<=" v)
        = some (.mk [.fieldRange key { lte := some v }] [] []))
    ∧ (∀ key vs, _convert_haystack_filter_to_qdrant (.comparison key "in" (.list vs))
        = some (.mk [.fieldMatchAny key vs] [] []))
    ∧ (∀ key vs, _convert_haystack_filter_to_qdrant (.comparison key "not in" (.list vs))
        = some (.mk [] [.fieldMatchAny key vs] []))
    ∧ (∀ c1 c2 f1 f2, _convert_haystack_filter_to_qdrant c1 = some f1 →
        _convert_haystack_filter_to_qdrant c2 = some f2 →
        _convert_haystack_filter_to_qdrant (.logic "AND" [c1, c2])
          = some (.mk (f1.must ++ f2.must) (f1.mustNot ++ f2.mustNot) (f1.should ++ f2.should)))
    ∧ (∀ c1 c2 f1 f2, _convert_haystack_filter_to_qdrant c1 = some f1 →
        _convert_haystack_filter_to_qdrant c2 = some f2 →
        _convert_haystack_filter_to_qdrant (.logic "OR" [c1, c2])
          = some (.mk [] [] [.sub f1, .sub f2]))
    ∧ (∀ c f, _convert_haystack_filter_to_qdrant c = some f → f.must ≠ [] →
        _convert_haystack_filter_to_qdrant (.logic "NOT" [c]) = some (.mk [] f.must []))
    ∧ (∀ c f, _convert_haystack_filter_to_qdrant c = some f → f.must = [] → f.mustNot ≠ [] →
        _convert_haystack_filter_to_qdrant (.logic "NOT" [c]) = some (.mk f.mustNot [] []))
    ∧ (_convert_haystack_filter_to_qdrant
        (.logic "AND" [.comparison "meta.category" "==" (.str "user_rule"),
                       .logic "NOT" [.comparison "meta.status" "==" (.str "deprecated")]])
      = some (.mk [.fieldMatch "meta.category" (.str "user_rule")]
                  [.fieldMatch "meta.status" (.str "deprecated")] [])) := by
  refine ⟨fun key v => rfl, fun key v => rfl, fun key v => rfl, fun key v => rfl,
    fun key v => rfl, fun key v => rfl, fun key v => rfl, fun key v => rfl,
    ?_, ?_, ?_, ?_, rfl⟩
  · intro c1 c2 f1 f2 h1 h2
    rw [_convert_haystack_filter_to_qdrant]
    rw [show convertConditions [c1, c2] = [f1, f2] by
      rw [convertConditions, h1, convertConditions, h2, convertConditions]]
    rw [if_neg (by simp)]
    rw [if_pos (by rfl)]
    have hne := convert_some_nonempty c1 f1 h1
    rw [mkFilterOpt]
    have hflat1 : ([f1, f2].flatMap QFilter.must) = f1.must ++ f2.must := by
      simp [List.flatMap]
    have hflat2 : ([f1, f2].flatMap QFilter.mustNot) = f1.mustNot ++ f2.mustNot := by
      simp [List.flatMap]
    have hflat3 : ([f1, f2].flatMap QFilter.should) = f1.should ++ f2.should := by
      simp [List.flatMap]
    rw [hflat1, hflat2, hflat3]
    rw [if_neg ?_]
    intro hall
    simp only [Bool.and_eq_true, List.isEmpty_iff] at hall
    rcases hne with h | h | h
    · exact h (List.append_eq_nil.mp hall.1.1).1
    · exact h (List.append_eq_nil.mp hall.1.2).1
    · exact h (List.append_eq_nil.mp hall.2).1
  · intro c1 c2 f1 f2 h1 h2
    rw [_convert_haystack_filter_to_qdrant]
    rw [show convertConditions [c1, c2] = [f1, f2] by
      rw [convertConditions, h1, convertConditions, h2, convertConditions]]
    rw [if_neg (by simp)]
    rw [if_neg (by decide), if_pos (by rfl)]
    rfl
  · intro c f h hm
    rw [_convert_haystack_filter_to_qdrant]
    rw [show convertConditions [c] = [f] by rw [convertConditions, h, convertConditions]]
    rw [if_neg (by simp)]
    rw [if_neg (by decide), if_neg (by decide), if_pos (by rfl)]
    dsimp only
    rw [if_pos (by simp [hm])]
  · intro c f h hm hmn
    rw [_convert_haystack_filter_to_qdrant]
    rw [show convertConditions [c] = [f] by rw [convertConditions, h, convertConditions]]
    rw [if_neg (by simp)]
    rw [if_neg (by decide), if_neg (by decide), if_pos (by rfl)]
    dsimp only
    rw [if_neg (by simp [hm]), if_pos (by simp [hmn])]

/-- Witness for `C9_filter_translation` at concrete filters. -/
theorem C9_filter_translation_witness :
    (_convert_haystack_filter_to_qdrant (.comparison "meta.a" "==" (.str "x"))
        = some (.mk [.fieldMatch "meta.a" (.str "x")] [] []))
    ∧ (_convert_haystack_filter_to_qdrant
          (.logic "AND" [.comparison "meta.a" "==" (.str "x"),
                         .comparison "meta.b" "!=" (.str "y")])
        = some (.mk ((QFilter.mk [.fieldMatch "meta.a" (.str "x")] [] []).must
                      ++ (QFilter.mk [] [.fieldMatch "meta.b" (.str "y")] []).must)
                    ((QFilter.mk [.fieldMatch "meta.a" (.str "x")] [] []).mustNot
                      ++ (QFilter.mk [] [.fieldMatch "meta.b" (.str "y")] []).mustNot)
                    ((QFilter.mk [.fieldMatch "meta.a" (.str "x")] [] []).should
                      ++ (QFilter.mk [] [.fieldMatch "meta.b" (.str "y")] []).should)))
    ∧ (_convert_haystack_filter_to_qdrant (.logic "NOT" [.comparison "meta.a" "==" (.str "x")])
        = some (.mk [] (QFilter.mk [.fieldMatch "meta.a" (.str "x")] [] []).must []))
    ∧ (_convert_haystack_filter_to_qdrant (.logic "NOT" [.comparison "meta.a" "!=" (.str "x")])
        = some (.mk (QFilter.mk [] [.fieldMatch "meta.a" (.str "x")] []).mustNot [] [])) :=
  ⟨C9_filter_translation.1 "meta.a" (.str "x"),
   C9_filter_translation.2.2.2.2.2.2.2.2.1 _ _ _ _ rfl rfl,
   C9_filter_translation.2.2.2.2.2.2.2.2.2.2.1 _ _ rfl (by simp [QFilter.must]),
   C9_filter_translation.2.2.2.2.2.2.2.2.2.2.2.1 _ _ rfl rfl (by simp [QFilter.mustNot])⟩

/-! ## metadata_service query functions (claim C10)

`document_store.filter_documents` is the only store call these functions
make; it is modelled as a function from the Haystack filter to
`Except String (List Doc)` (an `error` is a raised exception). -/

/-- The slice of a `QdrantDocumentStore` these services use. -/
structure DocStore where
  filterDocuments : HFilter → Except String (List Doc)

/-- Combine filter conditions as the queries do: a single condition is passed
bare, several are wrapped in an AND logic node. -/
def combineConditions (conditions : List HFilter) : HFilter :=
  if conditions.length == 1 then conditions.getD 0 (.logic "AND" [])
  else .logic "AND" conditions

/-- `metadata_service.query_by_doc_id`. -/
def query_by_doc_id (store : DocStore) (doc_id : String)
    (category : Option String := none) (status : Option String := some "active") :
    List Doc :=
  let conditions := [HFilter.comparison "meta.doc_id" "==" (.str doc_id)]
    ++ (if pyTruthyS category then
          [HFilter.comparison "meta.category" "==" (.str (category.getD ""))] else [])
    ++ (if pyTruthyS status then
          [HFilter.comparison "meta.status" "==" (.str (status.getD ""))] else [])
  match store.filterDocuments (combineConditions conditions) with
  | .ok docs => docs
  | .error _ => []

/-- `metadata_service.query_by_file_path`. -/
def query_by_file_path (store : DocStore) (file_path : String)
    (status : Option String := some "active") : List Doc :=
  let conditions := [HFilter.comparison "meta.file_path" "==" (.str file_path)]
    ++ (if pyTruthyS status then
          [HFilter.comparison "meta.status" "==" (.str (status.getD ""))] else [])
  match store.filterDocuments (combineConditions conditions) with
  | .ok docs => docs
  | .error _ => []

/-- `metadata_service.query_by_content_hash`: try `meta.hash_content`, fall
back to `meta.content_hash`; every exception is swallowed. -/
def query_by_content_hash (store : DocStore) (content_hash : String)
    (status : Option String := none) : List Doc :=
  let conditions1 := [HFilter.comparison "meta.hash_content" "==" (.str content_hash)]
    ++ (if pyTruthyS status then
          [HFilter.comparison "meta.status" "==" (.str (status.getD ""))] else [])
  let conditions2 := [HFilter.comparison "meta.content_hash" "==" (.str content_hash)]
    ++ (if pyTruthyS status then
          [HFilter.comparison "meta.status" "==" (.str (status.getD ""))] else [])
  let fallback :=
    match store.filterDocuments (combineConditions conditions2) with
    | .ok docs => docs
    | .error _ => []
  match store.filterDocuments (combineConditions conditions1) with
  | .ok docs => if !docs.isEmpty then docs else fallback
  | .error _ => fallback

/-- A store whose every call raises. -/
def failingStore (e : String) : DocStore := ⟨fun _ => .error e⟩

/-- A store that succeeds with no matching documents. -/
def emptyStore : DocStore := ⟨fun _ => .ok []⟩

/-- C10: every store exception in the three lookup functions is swallowed
into an empty result, indistinguishable from a store that finds nothing; and
an empty candidate set makes the duplicate detector return level 4 with
action `store`, so a failed lookup classifies a prospective write as new
content. -/
theorem C10_lookup_swallows_errors (e doc_id file_path content_hash : String)
    (category status : Option String) (fp : Fingerprint) (docId : Option String) :
    query_by_doc_id (failingStore e) doc_id category status = []
    ∧ query_by_file_path (failingStore e) file_path status = []
    ∧ query_by_content_hash (failingStore e) content_hash status = []
    ∧ query_by_doc_id (failingStore e) doc_id category status
        = query_by_doc_id emptyStore doc_id category status
    ∧ query_by_file_path (failingStore e) file_path status
        = query_by_file_path emptyStore file_path status
    ∧ query_by_content_hash (failingStore e) content_hash status
        = query_by_content_hash emptyStore content_hash status
    ∧ (check_duplicate_level fp [] docId false).level = 4
    ∧ (decide_storage_action (check_duplicate_level fp [] docId false).level fp
        (check_duplicate_level fp [] docId false).matching).1 = "store" :=
  ⟨rfl, rfl, rfl, rfl, rfl, rfl, rfl, rfl⟩

/-! ## update_service.update_document_metadata (claim C3)

The Qdrant client is modelled at point level: a stored point has an id, an
optional vector and a payload; `retrieve` honours `with_vectors` by blanking
the vector, exactly as the wire call does. -/

/-- A point payload: the `meta` key (a nested dict, when present) and all
other top-level entries (`content`, `id`, flattened metadata, ...). -/
structure Payload where
  entries : List (String × PyVal) := []
  meta : Option (List (String × PyVal)) := none

/-- A point as stored in the collection. -/
structure StoredPoint where
  id : String
  vector : Option (List Int) := none
  payload : Payload

/-- A point as returned by `client.retrieve`. -/
structure RetrievedPoint where
  id : String
  payload : Payload
  vector : Option (List Int)

/-- `client.retrieve(collection, ids, with_payload=True, with_vectors=...)`:
matching points, vectors withheld when `with_vectors` is false. -/
def retrieve (store : List StoredPoint) (ids : List String) (withVectors : Bool) :
    List RetrievedPoint :=
  (store.filter (fun p => ids.contains p.id)).map
    (fun p => ⟨p.id, p.payload, if withVectors then p.vector else none⟩)

/-- A `client.upsert` call: point id, vector and payload written. -/
structure UpsertCall where
  id : String
  vector : Option (List Int)
  payload : Payload

/-- A structured result envelope as the update service returns it. -/
structure PyResult where
  status : String
  error : Option String := none
  errorType : Option String := none
  documentId : Option String := none
  updatedFields : List String := []

/-- The volatile/dynamic keys excluded from the flat-payload metadata hash in
update_service. -/
def flatHashExcluded : List String :=
  ["content", "id", "created_at", "updated_at", "status", "version", "metadata_hash"]

/-- `update_service.update_document_metadata`.  `now` stands for
`datetime.utcnow().isoformat()+'Z'`.  Note: the point is retrieved with
`with_vectors=False`, and in the nested-payload branch the source assigns
`updated_payload["meta"]` without ever binding `updated_payload`, which
raises `UnboundLocalError` into the enclosing `except`. -/
def update_document_metadata (store : List StoredPoint) (document_id : String)
    (metadata_updates : List (String × PyVal)) (now : String) :
    PyResult × List UpsertCall :=
  let points := retrieve store [document_id] false
  match points with
  | [] => ({ status := "error", error := some ("Document not found: " ++ document_id) }, [])
  | existing_point :: _ =>
      match existing_point.payload.meta with
      | some _ =>
          ({ status := "error",
             error := some "cannot access local variable updated_payload where it is not associated with a value",
             errorType := some "UnboundLocalError" }, [])
      | none =>
          let p1 := dictUpdate existing_point.payload.entries metadata_updates
          let p2 := dictSet p1 "updated_at" (.str now)
          let metadata_fields := p2.filter (fun kv => !(flatHashExcluded.contains kv.1))
          let mh := sha256hex (utf8 (pyJsonDumpsSorted metadata_fields))
          let p3 := dictSet p2 "metadata_hash" (.str mh)
          let vector := existing_point.vector
          ({ status := "success", documentId := some document_id,
             updatedFields := metadata_updates.map (fun kv => kv.1) },
           [⟨document_id, vector, { entries := p3, meta := none }⟩])

/-- `update_service.deprecate_version`: a metadata update of
`{status: deprecated}`. -/
def deprecate_version (store : List StoredPoint) (document_id : String) (now : String) :
    PyResult × List UpsertCall :=
  update_document_metadata store document_id [("status", .str "deprecated")] now

/-- `retrieve` with `with_vectors=False` never returns a vector. -/
theorem retrieve_no_vectors (store : List StoredPoint) (ids : List String) :
    ∀ rp ∈ retrieve store ids false, rp.vector = none := by
  intro rp hrp
  rcases List.mem_map.mp hrp with ⟨p, _, he⟩
  rw [← he]
  rfl

/-- C3: the claim is right and the code is wrong.  `update_document_metadata`
retrieves the point with `with_vectors=False`, so the store never returns a
vector; instead of failing with `VectorMissing`, the flat-payload path
reports success and upserts the point with `vector=None`, and the
nested-payload path dies on an unbound local, never with `VectorMissing`. -/
theorem C3_metadata_update_missing_vector (store : List StoredPoint)
    (document_id now : String) (updates : List (String × PyVal))
    (rp : RetrievedPoint) (rest : List RetrievedPoint)
    (hret : retrieve store [document_id] false = rp :: rest) :
    rp.vector = none
    ∧ (rp.payload.meta = none →
        (update_document_metadata store document_id updates now).1.status = "success"
        ∧ (update_document_metadata store document_id updates now).2.map
            (fun u => (u.id, u.vector)) = [(document_id, none)])
    ∧ (∀ m, rp.payload.meta = some m →
        (update_document_metadata store document_id updates now).1.errorType
            = some "UnboundLocalError"
        ∧ (update_document_metadata store document_id updates now).2 = []) := by
  have hnone : rp.vector = none :=
    retrieve_no_vectors store [document_id] rp (hret ▸ List.mem_cons_self rp rest)
  refine ⟨hnone, ?_, ?_⟩
  · intro hflat
    rw [update_document_metadata, hret]
    dsimp only
    rw [hflat]
    dsimp only
    refine ⟨rfl, ?_⟩
    rw [hnone]
    simp
  · intro m hmeta
    rw [update_document_metadata, hret]
    dsimp only
    rw [hmeta]
    exact ⟨rfl, rfl⟩

/-- Witness for `C3_metadata_update_missing_vector`: a one-point store whose
point has a stored vector and a flat payload; the metadata update still
upserts with no vector. -/
theorem C3_metadata_update_missing_vector_witness :
    (retrieve [⟨"p1", some [1, 2], { entries := [("content", .str "c"), ("doc_id", .str "d1")] }⟩]
        ["p1"] false
      = [⟨"p1", { entries := [("content", .str "c"), ("doc_id", .str "d1")] }, none⟩])
    ∧ (⟨"p1", { entries := [("content", .str "c"), ("doc_id", .str "d1")] }, none⟩ :
        RetrievedPoint).vector = none
    ∧ ((update_document_metadata
          [⟨"p1", some [1, 2], { entries := [("content", .str "c"), ("doc_id", .str "d1")] }⟩]
          "p1" [("category", .str "other")] "T0").1.status = "success"
      ∧ (update_document_metadata
          [⟨"p1", some [1, 2], { entries := [("content", .str "c"), ("doc_id", .str "d1")] }⟩]
          "p1" [("category", .str "other")] "T0").2.map (fun u => (u.id, u.vector))
        = [("p1", none)]) := by
  have h := C3_metadata_update_missing_vector
    [⟨"p1", some [1, 2], { entries := [("content", .str "c"), ("doc_id", .str "d1")] }⟩]
    "p1" "T0" [("category", .str "other")]
    ⟨"p1", { entries := [("content", .str "c"), ("doc_id", .str "d1")] }, none⟩ [] rfl
  exact ⟨rfl, h.1, h.2.1 rfl⟩

/-! ## chunk_service.chunk_document and chunk_update_service (claims C2, C7)

The recursive splitter is an external Haystack component; it enters the model
as a parameter `split : String → List String` giving the chunk texts. -/

/-- The metadata dict of a chunk document, reconstructed from the fields the
model carries (`json.dumps` sorts keys, so insertion order is irrelevant). -/
def docMetaDict (d : Doc) : List (String × PyVal) :=
  (match d.docId with | some v => [("doc_id", PyVal.str v)] | none => [])
  ++ (match d.chunkId with | some v => [("chunk_id", PyVal.str v)] | none => [])
  ++ (match d.chunkIndex with | some v => [("chunk_index", PyVal.int v)] | none => [])
  ++ (match d.parentDocId with | some v => [("parent_doc_id", PyVal.str v)] | none => [])
  ++ (match d.totalChunks with | some v => [("total_chunks", PyVal.int v)] | none => [])
  ++ (match d.hashContent with | some v => [("hash_content", PyVal.str v)] | none => [])
  ++ (match d.contentHash with | some v => [("content_hash", PyVal.str v)] | none => [])
  ++ (match d.metadataHash with | some v => [("metadata_hash", PyVal.str v)] | none => [])
  ++ (match d.version with | some v => [("version", PyVal.str v)] | none => [])
  ++ (match d.status with | some v => [("status", PyVal.str v)] | none => [])

/-- Stable insertion by `meta.get('chunk_index', 0)` (Python's sort is
stable; equal keys keep their relative order). -/
def insertByChunkIndex (x : Doc) : List Doc → List Doc
  | [] => [x]
  | y :: t =>
      if (y.chunkIndex.getD 0) ≤ (x.chunkIndex.getD 0) then y :: insertByChunkIndex x t
      else x :: y :: t

/-- `chunks.sort(key=lambda doc: doc.meta.get('chunk_index', 0))`. -/
def sortByChunkIndex (l : List Doc) : List Doc := l.foldl (fun acc x => insertByChunkIndex x acc) []

/-- `chunk_service.get_chunks_by_parent_doc_id`: filter by parent and status,
sort by index, swallow exceptions. -/
def get_chunks_by_parent_doc_id (store : DocStore) (parent_doc_id : String)
    (status : Option String := some "active") : List Doc :=
  let filters :=
    if pyTruthyS status then
      HFilter.logic "AND"
        [.comparison "meta.parent_doc_id" "==" (.str parent_doc_id),
         .comparison "meta.status" "==" (.str (status.getD ""))]
    else .comparison "meta.parent_doc_id" "==" (.str parent_doc_id)
  match store.filterDocuments filters with
  | .ok chunks => sortByChunkIndex chunks
  | .error _ => []

/-- `chunk_service.generate_chunk_id`. -/
def generate_chunk_id (doc_id : String) (chunk_index : Nat) : String :=
  doc_id ++ "_chunk_" ++ toString chunk_index

/-- `chunk_service.chunk_document`: split, then enrich each chunk with its
id, index, parent reference, total count and content hash.  Extra parent
metadata copied onto chunks lies outside the modelled field set. -/
def chunk_document (split : String → List String) (content : String) (doc_id : String) :
    List Doc :=
  if content = "" then []
  else
    let parts := split content
    let total := parts.length
    parts.enum.map (fun p =>
      let chunk_id := generate_chunk_id doc_id p.1
      let h := sha256hex (utf8 (normalize_content p.2))
      { content := p.2, docId := some chunk_id, chunkId := some chunk_id,
        chunkIndex := some (Int.ofNat p.1), parentDocId := some doc_id,
        totalChunks := some (Int.ofNat total), hashContent := some h,
        contentHash := some h })

/-- Modelled from the spec: `build_chunk_metadata` is imported from
metadata_service by chunk_update_service but is absent from the source tree.
Per the builder contract (§4.2 of the spec) it behaves as
`build_metadata_schema` with the chunk fields `chunk_id`, `chunk_index`,
`parent_doc_id`, `is_chunk`, `total_chunks` added: it produces a fully
populated record with generated timestamps, defaults, computed
`metadata_hash` over the stable subset, and fails with `InvalidMetadata`
when a required field is empty or an enumerated value is invalid. -/
def build_chunk_metadata (doc_id chunk_id : Option String) (chunk_index : Option Int)
    (parent_doc_id : String) (total_chunks : Nat) (category hash_content : String)
    (version file_path : Option String) (source : String) (tags : Option (List String))
    (status : String) (now : String) : Except String (List (String × PyVal)) :=
  if !(pyTruthyS doc_id) then .error "InvalidMetadata: doc_id is required and cannot be empty"
  else if !(VALID_CATEGORIES.contains category) then .error "InvalidMetadata: invalid category"
  else if hash_content == "" then .error "InvalidMetadata: hash_content is required"
  else if !(VALID_SOURCES.contains source) then .error "InvalidMetadata: invalid source"
  else if !(VALID_STATUSES.contains status) then .error "InvalidMetadata: invalid status"
  else
    let base := buildBaseMetadata (doc_id.getD "") (resolveVersion version now) category
      hash_content source "qdrant_haystack" status now (tags.getD []) file_path none
    let rec1 := base ++
      [("chunk_id", PyVal.str (chunk_id.getD "")), ("chunk_index", PyVal.int (chunk_index.getD 0)),
       ("parent_doc_id", PyVal.str parent_doc_id), ("is_chunk", PyVal.bool true),
       ("total_chunks", PyVal.int (Int.ofNat total_chunks))]
    let mh := sha256hex (utf8 (pyJsonDumpsSorted (excludeVolatile rec1)))
    .ok (rec1 ++ [("metadata_hash", PyVal.str mh), ("content_hash", PyVal.str hash_content)])

/-- The parameters `update_service.deprecate_version` declares. -/
def deprecateVersionParams : List String := ["document_store", "document_id", "collection_name"]

/-- Python call binding: a keyword argument outside the declared parameters
raises `TypeError` before the body runs. -/
def bindCall (params kwargs : List String) : Except String Unit :=
  if kwargs.all (fun k => params.contains k) then .ok ()
  else .error "TypeError: deprecate_version() got an unexpected keyword argument"

/-- The call chunk_update_service makes:
`deprecate_version(document_store, old_chunk.id, content_hash=...)`, i.e.
keywords `document_store`, `document_id` (positional) and `content_hash`. -/
def chunkUpdateDeprecateCall : Except String Unit :=
  bindCall deprecateVersionParams ["document_store", "document_id", "content_hash"]

/-- Result envelope of `update_chunked_document`. -/
structure ChunkUpdateResult where
  status : String
  error : Option String := none
  errorType : Option String := none
  totalChunks : Nat := 0
  unchangedCount : Nat := 0
  changedCount : Nat := 0
  newCount : Nat := 0
  deletedCount : Nat := 0
  chunkIds : List (Option String) := []

/-- Side effects of one `update_chunked_document` run, in order. -/
structure ChunkUpdateEffects where
  embedCalls : List (String × List (String × PyVal)) := []
  writes : List (String × List (String × PyVal)) := []
  deprecated : List String := []

/-- Step 5's per-chunk deprecation attempt: find the old chunk with the same
`chunk_index`; when it has a truthy id, try `deprecate_version` inside the
per-chunk `try` (the call never binds, see `chunkUpdateDeprecateCall`, so the
`except` swallows it and nothing is deprecated). -/
def deprecateAttempt (existing : List Doc) (nc : Doc) (deprecateOld : Bool) : List String :=
  if deprecateOld then
    match existing.find? (fun o => o.chunkIndex == nc.chunkIndex) with
    | some old =>
        if pyTruthyS old.id then
          match chunkUpdateDeprecateCall with
          | .ok _ => [old.id.getD ""]
          | .error _ => []
        else []
    | none => []
  else []

/-- Step 7: the deleted-chunks loop.  Each old chunk with a truthy id gets a
`deprecate_version(document_store, id, content_hash=...)` attempt inside
`try`; `deleted_count` counts only the attempts that did not raise. -/
def deprecateDeleted (deleted : List Doc) : List String :=
  deleted.filterMap (fun dc =>
    if pyTruthyS dc.id then
      match chunkUpdateDeprecateCall with
      | .ok _ => some (dc.id.getD "")
      | .error _ => none
    else none)

/-- One pass of steps 5 (changed, `deprecateOld = true`) or 6 (new) of
`update_chunked_document`: per chunk, optionally attempt to deprecate the
matching old chunk (the call never binds, see `chunkUpdateDeprecateCall`),
fingerprint, build metadata, embed when an embedder is given, and write.  A
builder error aborts the loop into the function's `except` handler, keeping
the effects already performed. -/
def processChunks (existing : List Doc) (doc_id category : String)
    (version file_path : Option String) (source : String) (tags : Option (List String))
    (totalChunks : Nat) (embedderPresent : Bool) (now : String) (deprecateOld : Bool) :
    List Doc → ChunkUpdateEffects × List (Option String) × Nat × Option (String × String)
  | [] => ({}, [], 0, none)
  | nc :: rest =>
      let dep := deprecateAttempt existing nc deprecateOld
      let fp := generate_content_fingerprint nc.content (docMetaDict nc)
      match build_chunk_metadata nc.chunkId nc.chunkId nc.chunkIndex doc_id totalChunks
          category fp.contentHash version file_path source tags "active" now with
      | .error e => ({ deprecated := dep }, [], 0, some (e, "ValueError"))
      | .ok md =>
          let r := processChunks existing doc_id category version file_path source tags
            totalChunks embedderPresent now deprecateOld rest
          ({ embedCalls := (if embedderPresent then [(nc.content, md)] else [])
                ++ r.1.embedCalls,
             writes := (nc.content, md) :: r.1.writes,
             deprecated := dep ++ r.1.deprecated },
           nc.chunkId :: r.2.1, r.2.2.1 + 1, r.2.2.2)

/-- `chunk_update_service.update_chunked_document`. -/
def update_chunked_document (store : DocStore) (split : String → List String)
    (content doc_id category : String) (version file_path : Option String := none)
    (source : String := "manual") (tags : Option (List String) := none)
    (embedderPresent : Bool := true) (now : String := "now") :
    ChunkUpdateResult × ChunkUpdateEffects :=
  let existing := get_chunks_by_parent_doc_id store doc_id (some "active")
  let newChunks := chunk_document split content doc_id
  if newChunks.isEmpty then
    ({ status := "error", error := some "Failed to chunk document",
       errorType := some "ChunkingError" }, {})
  else
    let changes := compare_chunks existing newChunks
    let rc := processChunks existing doc_id category version file_path source tags
      newChunks.length embedderPresent now true changes.changed
    match rc.2.2.2 with
    | some (e, t) => ({ status := "error", error := some e, errorType := some t }, rc.1)
    | none =>
        let rn := processChunks existing doc_id category version file_path source tags
          newChunks.length embedderPresent now false changes.newChunks
        match rn.2.2.2 with
        | some (e, t) =>
            ({ status := "error", error := some e, errorType := some t },
             { embedCalls := rc.1.embedCalls ++ rn.1.embedCalls,
               writes := rc.1.writes ++ rn.1.writes,
               deprecated := rc.1.deprecated ++ rn.1.deprecated })
        | none =>
            let depDel := deprecateDeleted changes.deleted
            ({ status := "success", totalChunks := newChunks.length,
               unchangedCount := changes.unchanged.length,
               changedCount := rc.2.2.1, newCount := rn.2.2.1,
               deletedCount := depDel.length,
               chunkIds := rc.2.1 ++ rn.2.1 },
             { embedCalls := rc.1.embedCalls ++ rn.1.embedCalls,
               writes := rc.1.writes ++ rn.1.writes,
               deprecated := rc.1.deprecated ++ rn.1.deprecated ++ depDel })

/-! ### Lemmas for the chunk-update loops (claims C2, C7) -/

/-- The `deprecate_version` call never binds: `content_hash` is not a
parameter of `deprecate_version`. -/
theorem chunkUpdateDeprecateCall_eq :
    chunkUpdateDeprecateCall =
      Except.error "TypeError: deprecate_version() got an unexpected keyword argument" := rfl

theorem deprecateAttempt_nil (existing : List Doc) (nc : Doc) (dep : Bool) :
    deprecateAttempt existing nc dep = [] := by
  unfold deprecateAttempt
  rw [chunkUpdateDeprecateCall_eq]
  split
  · split
    · split <;> rfl
    · rfl
  · rfl

theorem deprecateDeleted_nil (l : List Doc) : deprecateDeleted l = [] := by
  unfold deprecateDeleted
  rw [List.filterMap_eq_nil_iff]
  intro dc _
  rw [chunkUpdateDeprecateCall_eq]
  split <;> rfl

theorem processChunks_deprecated_nil (existing : List Doc) (doc_id category : String)
    (version file_path : Option String) (source : String) (tags : Option (List String))
    (totalChunks : Nat) (emb : Bool) (now : String) (dep : Bool) :
    ∀ l : List Doc,
      (processChunks existing doc_id category version file_path source tags
        totalChunks emb now dep l).1.deprecated = []
  | [] => rfl
  | nc :: rest => by
      have ih := processChunks_deprecated_nil existing doc_id category version file_path
        source tags totalChunks emb now dep rest
      unfold processChunks
      dsimp only
      split
      · dsimp only
        exact deprecateAttempt_nil existing nc dep
      · dsimp only
        rw [deprecateAttempt_nil, ih]
        rfl

/-- A store holding two active chunks of parent "d" (indices 0 and 1). -/
def c2Store : DocStore :=
  ⟨fun _ => .ok [
    { id := some "old0", chunkId := some "d_chunk_0", chunkIndex := some 0,
      parentDocId := some "d", hashContent := some "oldhash0", status := some "active" },
    { id := some "old1", chunkId := some "d_chunk_1", chunkIndex := some 1,
      parentDocId := some "d", hashContent := some "oldhash1", status := some "active" }]⟩

/-- A splitter producing a single chunk. -/
def c2Split : String → List String := fun s => [s]

/-- C2: the claim says every deleted chunk is deprecated and `deleted_count`
equals the number of deleted chunks.  In the code every
`deprecate_version(..., content_hash=...)` call raises `TypeError` (the
parameter does not exist) inside a `try` that swallows it, so NO chunk is
ever deprecated and `deleted_count` is always 0 — first conjunct: for every
input, the run deprecates nothing and reports `deleted_count = 0`; second
conjunct: a concrete run that succeeds while its diff has one deleted chunk,
so the claimed count 1 is not reported. -/
theorem C2_deleted_never_deprecated :
    (∀ (store : DocStore) (split : String → List String)
       (content doc_id category : String) (version file_path : Option String)
       (source : String) (tags : Option (List String)) (emb : Bool) (now : String),
       (update_chunked_document store split content doc_id category version file_path
         source tags emb now).2.deprecated = [] ∧
       (update_chunked_document store split content doc_id category version file_path
         source tags emb now).1.deletedCount = 0)
    ∧
    ((update_chunked_document c2Store c2Split "x" "d" "other" none none "manual" none
        false "t").1.status = "success" ∧
     (compare_chunks (get_chunks_by_parent_doc_id c2Store "d" (some "active"))
        (chunk_document c2Split "x" "d")).deleted.length = 1) := by
  constructor
  · intro store split content doc_id category version file_path source tags emb now
    unfold update_chunked_document
    dsimp only
    split
    · exact ⟨rfl, rfl⟩
    · split
      · dsimp only
        exact ⟨processChunks_deprecated_nil _ _ _ _ _ _ _ _ _ _ _ _, rfl⟩
      · split
        · dsimp only
          constructor
          · rw [processChunks_deprecated_nil, processChunks_deprecated_nil]
            rfl
          · rfl
        · dsimp only
          constructor
          · rw [processChunks_deprecated_nil, processChunks_deprecated_nil,
              deprecateDeleted_nil]
            rfl
          · rw [deprecateDeleted_nil]
            rfl
  · constructor
    · decide
    · decide

/-- One SHA-256 round never empties the state (the catch-all arm returns the
state unchanged). -/
theorem sha256Round_ne_nil (st : List Nat) (kw : Nat × Nat) (h : st ≠ []) :
    sha256Round st kw ≠ [] := by
  unfold sha256Round
  split
  · simp
  · exact h

theorem foldl_sha256Round_ne_nil :
    ∀ (l : List (Nat × Nat)) (st : List Nat), st ≠ [] → l.foldl sha256Round st ≠ []
  | [], _, h => h
  | kw :: rest, st, h =>
      foldl_sha256Round_ne_nil rest (sha256Round st kw) (sha256Round_ne_nil st kw h)

theorem sha256Block_ne_nil (h block : List Nat) (hh : h ≠ []) : sha256Block h block ≠ [] := by
  unfold sha256Block
  dsimp only
  have hst := foldl_sha256Round_ne_nil
    (sha256K.zip (buildW (words4 block) 48)) h hh
  intro hc
  rw [List.map_eq_nil_iff] at hc
  rcases List.zip_eq_nil_iff.mp hc with h1 | h1
  · exact hh h1
  · exact hst h1

theorem sha256Words_ne_nil (msg : List Nat) : sha256Words msg ≠ [] := by
  unfold sha256Words
  have hgen : ∀ (bs : List (List Nat)) (h : List Nat), h ≠ [] → bs.foldl sha256Block h ≠ [] := by
    intro bs
    induction bs with
    | nil => exact fun h hh => hh
    | cons b rest ih => exact fun h hh => ih (sha256Block h b) (sha256Block_ne_nil h b hh)
  exact hgen _ sha256H0 (by decide)

/-- A SHA-256 hex digest is never the empty string. -/
theorem sha256hex_ne_empty (msg : List Nat) : sha256hex msg ≠ "" := by
  unfold sha256hex
  intro hc
  have hdata : (sha256Words msg).flatMap hex8 = [] := congrArg String.data hc
  rcases hw : sha256Words msg with _ | ⟨w, rest⟩
  · exact sha256Words_ne_nil msg hw
  · rw [hw] at hdata
    have hdata2 : hex8 w ++ rest.flatMap hex8 = [] := hdata
    have h8 : hex8 w = [] := (List.append_eq_nil.mp hdata2).1
    exact absurd h8 (by simp [hex8])

theorem fingerprint_contentHash_ne_empty (content : String) (md : List (String × PyVal)) :
    (generate_content_fingerprint content md).contentHash ≠ "" :=
  sha256hex_ne_empty _

/-- `build_chunk_metadata` succeeds whenever the id is truthy, the category,
source are valid, and the content hash is non-empty (status is `active`). -/
theorem build_chunk_metadata_isOk (cid : Option String) (ci : Option Int) (pdi : String)
    (tc : Nat) (category h : String) (version vfile : Option String) (source : String)
    (tags : Option (List String)) (now : String)
    (h1 : pyTruthyS cid = true) (hcat : VALID_CATEGORIES.contains category = true)
    (hh : h ≠ "") (hsrc : VALID_SOURCES.contains source = true) :
    ∃ md, build_chunk_metadata cid cid ci pdi tc category h version vfile source tags
      "active" now = Except.ok md := by
  have hh2 : (h == "") = false := by
    rw [beq_eq_false_iff_ne]
    exact hh
  unfold build_chunk_metadata
  rw [h1, hcat, hsrc, hh2]
  exact ⟨_, rfl⟩

theorem generate_chunk_id_ne_empty (d : String) (i : Nat) : generate_chunk_id d i ≠ "" := by
  unfold generate_chunk_id
  intro hc
  have hlen : (d ++ "_chunk_" ++ toString i).length = 0 := by rw [hc]; rfl
  rw [String.length_append, String.length_append] at hlen
  have h7 : "_chunk_".length = 7 := rfl
  omega

/-- Every chunk produced by `chunk_document` carries a truthy `chunk_id`. -/
theorem chunk_document_chunkId (split : String → List String) (content doc_id : String) :
    ∀ c ∈ chunk_document split content doc_id, pyTruthyS c.chunkId = true := by
  intro c hc
  unfold chunk_document at hc
  split at hc
  · exact absurd hc (List.not_mem_nil c)
  · dsimp only at hc
    obtain ⟨p, hp, hpe⟩ := List.mem_map.mp hc
    have : c.chunkId = some (generate_chunk_id doc_id p.1) := by rw [← hpe]
    rw [this]
    show (generate_chunk_id doc_id p.1 != "") = true
    rw [bne_iff_ne]
    exact generate_chunk_id_ne_empty doc_id p.1

/-- Membership invariant of the `compare_chunks` fold: any chunk in the
`changed` or `new` accumulators came from the initial state or the iterated
list. -/
theorem compareFold_mem (dict : List (Option Int × Doc)) :
    ∀ (l : List Doc) (st : DiffState),
      (∀ c ∈ (l.foldl (compareStep dict) st).changed, c ∈ st.changed ∨ c ∈ l) ∧
      (∀ c ∈ (l.foldl (compareStep dict) st).newList, c ∈ st.newList ∨ c ∈ l) := by
  intro l
  induction l with
  | nil => exact fun st => ⟨fun c hc => Or.inl hc, fun c hc => Or.inl hc⟩
  | cons nc rest ih =>
      intro st
      have hstep_changed : ∀ c ∈ (compareStep dict st nc).changed, c ∈ st.changed ∨ c = nc := by
        intro c hc
        unfold compareStep at hc
        split at hc
        · split at hc
          · dsimp only at hc
            exact Or.inl hc
          · dsimp only at hc
            rcases List.mem_append.mp hc with h2 | h2
            · exact Or.inl h2
            · exact Or.inr (List.mem_singleton.mp h2)
        · dsimp only at hc
          exact Or.inl hc
      have hstep_new : ∀ c ∈ (compareStep dict st nc).newList, c ∈ st.newList ∨ c = nc := by
        intro c hc
        unfold compareStep at hc
        split at hc
        · split at hc
          · dsimp only at hc
            exact Or.inl hc
          · dsimp only at hc
            exact Or.inl hc
        · dsimp only at hc
          rcases List.mem_append.mp hc with h2 | h2
          · exact Or.inl h2
          · exact Or.inr (List.mem_singleton.mp h2)
      constructor
      · intro c hc
        rcases (ih (compareStep dict st nc)).1 c hc with h | h
        · rcases hstep_changed c h with h2 | h2
          · exact Or.inl h2
          · exact Or.inr (h2 ▸ List.mem_cons_self nc rest)
        · exact Or.inr (List.mem_cons_of_mem nc h)
      · intro c hc
        rcases (ih (compareStep dict st nc)).2 c hc with h | h
        · rcases hstep_new c h with h2 | h2
          · exact Or.inl h2
          · exact Or.inr (h2 ▸ List.mem_cons_self nc rest)
        · exact Or.inr (List.mem_cons_of_mem nc h)

/-- Chunks classified `changed` by `compare_chunks` are new chunks. -/
theorem compare_chunks_changed_mem (old new : List Doc) :
    ∀ c ∈ (compare_chunks old new).changed, c ∈ new := by
  intro c hc
  unfold compare_chunks at hc
  dsimp only at hc
  rcases (compareFold_mem (chunksByIndex old) new
      ⟨[], [], [], (chunksByIndex old).map (fun p => p.1)⟩).1 c hc with h | h
  · exact absurd h (List.not_mem_nil c)
  · exact h

/-- Chunks classified `new` by `compare_chunks` are new chunks. -/
theorem compare_chunks_new_mem (old new : List Doc) :
    ∀ c ∈ (compare_chunks old new).newChunks, c ∈ new := by
  intro c hc
  unfold compare_chunks at hc
  dsimp only at hc
  rcases (compareFold_mem (chunksByIndex old) new
      ⟨[], [], [], (chunksByIndex old).map (fun p => p.1)⟩).2 c hc with h | h
  · exact absurd h (List.not_mem_nil c)
  · exact h

/-- When every iterated chunk has a truthy `chunk_id` and the category and
source are valid, the per-chunk loop completes without error, embeds each
chunk exactly once (when an embedder is present, never otherwise), writes
each chunk once, and counts and collects ids one per chunk. -/
theorem processChunks_ok (existing : List Doc) (doc_id category : String)
    (version file_path : Option String) (source : String) (tags : Option (List String))
    (totalChunks : Nat) (emb : Bool) (now : String) (dep : Bool)
    (hcat : VALID_CATEGORIES.contains category = true)
    (hsrc : VALID_SOURCES.contains source = true) :
    ∀ l : List Doc, (∀ nc ∈ l, pyTruthyS nc.chunkId = true) →
      (processChunks existing doc_id category version file_path source tags
        totalChunks emb now dep l).2.2.2 = none ∧
      (processChunks existing doc_id category version file_path source tags
        totalChunks emb now dep l).1.embedCalls.map Prod.fst
        = (if emb then l.map Doc.content else []) ∧
      (processChunks existing doc_id category version file_path source tags
        totalChunks emb now dep l).2.2.1 = l.length ∧
      (processChunks existing doc_id category version file_path source tags
        totalChunks emb now dep l).2.1 = l.map Doc.chunkId ∧
      (processChunks existing doc_id category version file_path source tags
        totalChunks emb now dep l).1.writes.map Prod.fst = l.map Doc.content := by
  intro l
  induction l with
  | nil =>
      intro _
      refine ⟨rfl, ?_, rfl, rfl, rfl⟩
      cases emb <;> rfl
  | cons nc rest ih =>
      intro hall
      obtain ⟨md, hmd⟩ := build_chunk_metadata_isOk nc.chunkId nc.chunkIndex doc_id
        totalChunks category
        (generate_content_fingerprint nc.content (docMetaDict nc)).contentHash
        version file_path source tags now (hall nc (List.mem_cons_self _ _)) hcat
        (fingerprint_contentHash_ne_empty _ _) hsrc
      have ihr := ih (fun x hx => hall x (List.mem_cons_of_mem _ hx))
      unfold processChunks
      dsimp only
      rw [hmd]
      dsimp only
      refine ⟨ihr.1, ?_, ?_, ?_, ?_⟩
      · rw [List.map_append, ihr.2.1]
        cases emb <;> simp
      · rw [ihr.2.2.1]
        rfl
      · rw [ihr.2.2.2.1]
        rfl
      · show nc.content :: (processChunks existing doc_id category version file_path source
            tags totalChunks emb now dep rest).1.writes.map Prod.fst
            = nc.content :: rest.map Doc.content
        rw [ihr.2.2.2.2]

/-- C7: in an incremental chunked update the embedder runs exactly once per
changed chunk and once per new chunk, in loop order, and never for an
unchanged chunk; the total embed-call count is |changed| + |new|, and with no
embedder present no embed call happens at all. -/
theorem C7_embedding_cost (store : DocStore) (split : String → List String)
    (content doc_id category : String) (version file_path : Option String)
    (source : String) (tags : Option (List String)) (now : String)
    (hcat : VALID_CATEGORIES.contains category = true)
    (hsrc : VALID_SOURCES.contains source = true)
    (hne : chunk_document split content doc_id ≠ []) :
    (update_chunked_document store split content doc_id category version file_path
       source tags true now).1.status = "success" ∧
    (update_chunked_document store split content doc_id category version file_path
       source tags true now).2.embedCalls.map Prod.fst
      = (compare_chunks (get_chunks_by_parent_doc_id store doc_id (some "active"))
           (chunk_document split content doc_id)).changed.map Doc.content
        ++ (compare_chunks (get_chunks_by_parent_doc_id store doc_id (some "active"))
             (chunk_document split content doc_id)).newChunks.map Doc.content ∧
    (update_chunked_document store split content doc_id category version file_path
       source tags true now).2.embedCalls.length
      = (compare_chunks (get_chunks_by_parent_doc_id store doc_id (some "active"))
           (chunk_document split content doc_id)).changed.length
        + (compare_chunks (get_chunks_by_parent_doc_id store doc_id (some "active"))
             (chunk_document split content doc_id)).newChunks.length ∧
    (update_chunked_document store split content doc_id category version file_path
       source tags true now).1.changedCount
      = (compare_chunks (get_chunks_by_parent_doc_id store doc_id (some "active"))
           (chunk_document split content doc_id)).changed.length ∧
    (update_chunked_document store split content doc_id category version file_path
       source tags true now).1.newCount
      = (compare_chunks (get_chunks_by_parent_doc_id store doc_id (some "active"))
           (chunk_document split content doc_id)).newChunks.length ∧
    (update_chunked_document store split content doc_id category version file_path
       source tags false now).2.embedCalls = [] := by
  have hch : ∀ nc ∈ (compare_chunks
      (get_chunks_by_parent_doc_id store doc_id (some "active"))
      (chunk_document split content doc_id)).changed, pyTruthyS nc.chunkId = true :=
    fun nc h => chunk_document_chunkId split content doc_id nc
      (compare_chunks_changed_mem _ _ nc h)
  have hnw : ∀ nc ∈ (compare_chunks
      (get_chunks_by_parent_doc_id store doc_id (some "active"))
      (chunk_document split content doc_id)).newChunks, pyTruthyS nc.chunkId = true :=
    fun nc h => chunk_document_chunkId split content doc_id nc
      (compare_chunks_new_mem _ _ nc h)
  have hrc := processChunks_ok (get_chunks_by_parent_doc_id store doc_id (some "active"))
    doc_id category version file_path source tags
    (chunk_document split content doc_id).length true now true hcat hsrc
    (compare_chunks (get_chunks_by_parent_doc_id store doc_id (some "active"))
      (chunk_document split content doc_id)).changed hch
  have hrn := processChunks_ok (get_chunks_by_parent_doc_id store doc_id (some "active"))
    doc_id category version file_path source tags
    (chunk_document split content doc_id).length true now false hcat hsrc
    (compare_chunks (get_chunks_by_parent_doc_id store doc_id (some "active"))
      (chunk_document split content doc_id)).newChunks hnw
  have hrcf := processChunks_ok (get_chunks_by_parent_doc_id store doc_id (some "active"))
    doc_id category version file_path source tags
    (chunk_document split content doc_id).length false now true hcat hsrc
    (compare_chunks (get_chunks_by_parent_doc_id store doc_id (some "active"))
      (chunk_document split content doc_id)).changed hch
  have hrnf := processChunks_ok (get_chunks_by_parent_doc_id store doc_id (some "active"))
    doc_id category version file_path source tags
    (chunk_document split content doc_id).length false now false hcat hsrc
    (compare_chunks (get_chunks_by_parent_doc_id store doc_id (some "active"))
      (chunk_document split content doc_id)).newChunks hnw
  have hE : ¬((chunk_document split content doc_id).isEmpty = true) := by
    rcases hl : chunk_document split content doc_id with _ | ⟨a, t⟩
    · exact absurd hl hne
    · intro hc
      exact Bool.false_ne_true hc
  unfold update_chunked_document
  dsimp only
  rw [if_neg hE]
  rw [hrc.1]
  dsimp only
  rw [hrn.1]
  dsimp only
  rw [hrcf.1]
  dsimp only
  rw [hrnf.1]
  dsimp only
  refine ⟨rfl, ?_, ?_, hrc.2.2.1, hrn.2.2.1, ?_⟩
  · rw [List.map_append, hrc.2.1, hrn.2.1]
    rfl
  · rw [List.length_append]
    have h1 := congrArg List.length hrc.2.1
    have h2 := congrArg List.length hrn.2.1
    simp only [List.length_map, if_true] at h1 h2
    rw [h1, h2]
  · rw [if_neg hE]
    dsimp only
    rw [List.append_eq_nil]
    constructor
    · have h1 := hrcf.2.1
      simp only [Bool.false_eq_true, if_false] at h1
      exact List.map_eq_nil_iff.mp h1
    · have h2 := hrnf.2.1
      simp only [Bool.false_eq_true, if_false] at h2
      exact List.map_eq_nil_iff.mp h2

/-- Witness for C7: a concrete run against the empty store, where every
chunk is new and the embed-call count equals |changed| + |new|. -/
theorem C7_embedding_cost_witness :
    (VALID_CATEGORIES.contains "other" = true) ∧
    (VALID_SOURCES.contains "manual" = true) ∧
    chunk_document c2Split "hi" "d" ≠ [] ∧
    (update_chunked_document emptyStore c2Split "hi" "d" "other" none none "manual" none
        true "t").2.embedCalls.length
      = (compare_chunks (get_chunks_by_parent_doc_id emptyStore "d" (some "active"))
           (chunk_document c2Split "hi" "d")).changed.length
        + (compare_chunks (get_chunks_by_parent_doc_id emptyStore "d" (some "active"))
             (chunk_document c2Split "hi" "d")).newChunks.length :=
  ⟨by decide, by decide, by decide,
   (C7_embedding_cost emptyStore c2Split "hi" "d" "other" none none "manual" none "t"
      (by decide) (by decide) (by decide)).2.2.1⟩

/-! ## backup_restore_service: integrity-checked restore (claim C8)

The filesystem enters the model as a `BackupDir` record: which files exist
and with which bytes, and the parse results of the three JSON files.  The
Qdrant scroll of existing ids and the duplicate strategy are parameters. -/

/-- One entry of `manifest.json`'s `files` list. -/
structure ManifestEntry where
  filename : String
  checksum : String
deriving DecidableEq

/-- The parsed `manifest.json`. -/
structure Manifest where
  files : List ManifestEntry
deriving DecidableEq

/-- The slice of `metadata.json` the restore path reads. -/
structure BackupMeta where
  includeEmbeddings : Bool := false
  backupId : Option String := none
deriving DecidableEq

/-- One document of `documents.json`. -/
structure RestDoc where
  id : Option String := none
  content : String := ""
  meta : List (String × PyVal) := []
  embedding : Option (List Int) := none

/-- A backup directory: existence, raw bytes of the contained files, and the
parse results of the JSON files (`none` = missing or unreadable). -/
structure BackupDir where
  dirExists : Bool := true
  manifest : Option Manifest := none
  fileBytes : List (String × List Nat) := []
  metadata : Option BackupMeta := none
  documents : Option (List RestDoc) := none

/-- The bytes of a file in the backup directory, when it exists. -/
def fileLookup (fs : List (String × List Nat)) (name : String) : Option (List Nat) :=
  (fs.find? (fun p => p.1 == name)).map (fun p => p.2)

/-- The errors one manifest entry contributes in `_verify_backup_integrity`:
a missing file, or a recomputed SHA-256 that differs from the recorded
checksum. -/
def verifyFileErrs (fs : List (String × List Nat)) (fi : ManifestEntry) : List String :=
  match fileLookup fs fi.filename with
  | none => ["File not found: " ++ fi.filename]
  | some bs =>
      let actual := sha256hex bs
      if actual != fi.checksum then
        ["Checksum mismatch for " ++ fi.filename ++ ": expected " ++ fi.checksum.take 16
          ++ "..., got " ++ actual.take 16 ++ "..."]
      else []

/-- `_verify_backup_integrity`: recompute each listed file's SHA-256 and
collect errors; `valid` iff no error. -/
def _verify_backup_integrity (dir : BackupDir) (manifest : Manifest) : Bool × List String :=
  let errors := manifest.files.flatMap (verifyFileErrs dir.fileBytes)
  (errors.length == 0, errors)

/-- The store writes a restore run issues, in order: `write_documents`
batches (Haystack path) and direct `upsert` batches (Qdrant path). -/
structure RestoreEffects where
  writeCalls : List (List RestDoc) := []
  upsertCalls : List (List RestDoc) := []

/-- Split the kept documents into write batches of `n` (the code flushes the
buffer whenever it reaches `batch_size`, then writes the remainder). -/
def batchesAux (n : Nat) : Nat → List RestDoc → List (List RestDoc)
  | 0, _ => []
  | _, [] => []
  | fuel + 1, a :: rest => ((a :: rest).take n) :: batchesAux n fuel ((a :: rest).drop n)

def batches100 (l : List RestDoc) : List (List RestDoc) := batchesAux 100 l.length l

/-- The duplicate-skip pass: under strategy `skip`, a document whose id is in
the existing-ids set is dropped and counted. -/
def skipFilter (strategy : String) (existingIds : List String) (docs : List RestDoc) :
    List RestDoc × Nat :=
  docs.foldl (fun acc d =>
    if strategy == "skip"
        && (match d.id with | some i => existingIds.contains i | none => false)
    then (acc.1, acc.2 + 1) else (acc.1 ++ [d], acc.2)) ([], 0)

/-- `_restore_collection`: skip duplicates, then write the kept documents in
batches of 100 — through Haystack `write_documents` when an embedder is
present, the backup lacks embeddings, or some document lacks one; through
direct Qdrant `upsert` otherwise.  The store is modelled as accepting every
batch (a failing batch only moves its count into the error list). -/
def _restore_collection (documents_data : List RestDoc) (existingIds : List String)
    (strategy : String) (embedderPresent backup_has_embeddings : Bool) :
    (Nat × Nat × List String) × RestoreEffects :=
  let all_docs_have_embeddings :=
    if documents_data.isEmpty then false
    else documents_data.all (fun d => d.embedding.isSome)
  let use_haystack := embedderPresent || !backup_has_embeddings || !all_docs_have_embeddings
  let kept := skipFilter strategy existingIds documents_data
  let bs := batches100 kept.1
  let restored := bs.foldl (fun n b => n + b.length) 0
  if use_haystack then ((restored, kept.2, []), { writeCalls := bs })
  else ((restored, kept.2, []), { upsertCalls := bs })

/-- The restore result envelope (`errors = []` stands for Python `None`). -/
structure RestoreResult where
  status : String
  error : Option String := none
  verificationErrors : Option (List String) := none
  restoredCount : Nat := 0
  skippedCount : Nat := 0
  errors : List String := []

/-- `restore_backup`, documentation collection (no `code_documents.json` /
code store in the model): existence checks, manifest load, integrity
verification, metadata and documents load, then `_restore_collection`.
A missing `metadata.json` raises out of `open` into the outer handler. -/
def restore_backup (dir : BackupDir) (existingIds : List String) (strategy : String)
    (embedderPresent : Bool) : RestoreResult × RestoreEffects :=
  if !dir.dirExists then
    ({ status := "error", error := some "Backup directory not found" }, {})
  else
    match dir.manifest with
    | none => ({ status := "error",
                 error := some "Manifest file not found in backup directory" }, {})
    | some manifest =>
        let ver := _verify_backup_integrity dir manifest
        if !ver.1 then
          ({ status := "error", error := some "Backup integrity check failed",
             verificationErrors := some ver.2 }, {})
        else
          match dir.metadata with
          | none => ({ status := "error",
                       error := some "metadata.json could not be read" }, {})
          | some meta =>
              match dir.documents with
              | none => ({ status := "error",
                           error := some "documents.json not found in backup directory" }, {})
              | some docs =>
                  let r := _restore_collection docs existingIds strategy embedderPresent
                    meta.includeEmbeddings
                  ({ status := "success", restoredCount := r.1.1, skippedCount := r.1.2.1,
                     errors := r.1.2.2 }, r.2)

/-- The backup directory of the C8 witness: the manifest lists
`documents.json` with a checksum that does not match the file's bytes. -/
def c8Dir : BackupDir :=
  { dirExists := true,
    manifest := some ⟨[⟨"documents.json", "deadbeef"⟩]⟩,
    fileBytes := [("documents.json", [])],
    metadata := some {},
    documents := some [] }

/-- C8: when the manifest lists a file that is absent or whose recomputed
SHA-256 differs from the recorded checksum, `restore_backup` returns the
integrity error (with the collected verification errors) and issues no
write or upsert to the store. -/
theorem C8_restore_integrity (dir : BackupDir) (m : Manifest) (existingIds : List String)
    (strategy : String) (emb : Bool)
    (hdir : dir.dirExists = true) (hman : dir.manifest = some m)
    (hbad : ∃ fi ∈ m.files, fileLookup dir.fileBytes fi.filename = none ∨
        sha256hex ((fileLookup dir.fileBytes fi.filename).getD []) ≠ fi.checksum) :
    (restore_backup dir existingIds strategy emb).1.status = "error" ∧
    (restore_backup dir existingIds strategy emb).1.error
      = some "Backup integrity check failed" ∧
    (restore_backup dir existingIds strategy emb).1.verificationErrors
      = some (_verify_backup_integrity dir m).2 ∧
    (restore_backup dir existingIds strategy emb).2.writeCalls = [] ∧
    (restore_backup dir existingIds strategy emb).2.upsertCalls = [] := by
  obtain ⟨fi, hfi, hb⟩ := hbad
  have herr : verifyFileErrs dir.fileBytes fi ≠ [] := by
    unfold verifyFileErrs
    rcases hl : fileLookup dir.fileBytes fi.filename with _ | bs
    · simp
    · rw [hl] at hb
      rcases hb with hb | hb
      · exact absurd hb (by simp)
      · have hb2 : sha256hex bs ≠ fi.checksum := by simpa using hb
        have hbne : (sha256hex bs != fi.checksum) = true := by
          rw [bne_iff_ne]
          exact hb2
        dsimp only
        rw [if_pos hbne]
        simp
  have hne2 : m.files.flatMap (verifyFileErrs dir.fileBytes) ≠ [] := by
    intro hc
    exact herr (List.flatMap_eq_nil_iff.mp hc fi hfi)
  have hvalid : (_verify_backup_integrity dir m).1 = false := by
    unfold _verify_backup_integrity
    rcases hc : m.files.flatMap (verifyFileErrs dir.fileBytes) with _ | ⟨a, t⟩
    · exact absurd hc hne2
    · rfl
  unfold restore_backup
  rw [hman]
  dsimp only
  rw [if_neg (by rw [hdir]; exact fun hc => Bool.false_ne_true hc)]
  rw [hvalid]
  exact ⟨rfl, rfl, rfl, rfl, rfl⟩

/-- Witness for C8: a concrete backup directory whose only manifest entry
records checksum "deadbeef" for an empty `documents.json`. -/
theorem C8_restore_integrity_witness :
    c8Dir.dirExists = true ∧
    c8Dir.manifest = some ⟨[⟨"documents.json", "deadbeef"⟩]⟩ ∧
    (∃ fi ∈ (⟨[⟨"documents.json", "deadbeef"⟩]⟩ : Manifest).files,
        fileLookup c8Dir.fileBytes fi.filename = none ∨
        sha256hex ((fileLookup c8Dir.fileBytes fi.filename).getD []) ≠ fi.checksum) ∧
    (restore_backup c8Dir [] "skip" false).1.status = "error" ∧
    (restore_backup c8Dir [] "skip" false).2.writeCalls = [] :=
  have h := C8_restore_integrity c8Dir ⟨[⟨"documents.json", "deadbeef"⟩]⟩ [] "skip" false
    rfl rfl (by decide)
  ⟨rfl, rfl, by decide, h.1, h.2.2.2.1⟩

end Haystack
